import Mathlib

/-!
Verification development for the AutoRetry extension.

The development shallowly embeds the JavaScript sources:
* `src/core.js` — the validity predicate `hasValidZhengwenTag`;
* `src/controller.js` — the `AutoRetryController` retry state machine;
* `src/runtime.js` — the runtime wiring: generation-session tracker,
  Auto-Continue gate, and the notification handlers.

JavaScript strings are modelled as `List Char` (all characters involved are
in the basic multilingual plane, so character positions coincide with UTF-16
unit positions), JavaScript numbers for counters/settings as `Nat`/`Int`
with the source's explicit clamping, and fields that may hold a non-string
or missing value as `Option`.  Logging calls are recorded in an explicit
`log` field; invoking the opaque regenerate action is recorded in an
explicit `regenInvocations` field (scheduling time, invocation time).

The file is organised with all definitions first, followed by all theorems.
-/

namespace AutoRetry

/-! ## Part 1 — Definitions -/

/-! ### JavaScript string trimming

`String.prototype.trim` removes the ECMA-262 WhiteSpace and LineTerminator
code points from both ends.  `jsTrim` models it on `List Char`. -/

/-- Characters removed by JavaScript's `trim()` (ECMA-262 WhiteSpace and
LineTerminator). -/
def isJsWhitespace (c : Char) : Bool :=
  let n := c.toNat
  n == 0x09 || n == 0x0A || n == 0x0B || n == 0x0C || n == 0x0D || n == 0x20 ||
  n == 0xA0 || n == 0x1680 || (0x2000 ≤ n && n ≤ 0x200A) ||
  n == 0x2028 || n == 0x2029 || n == 0x202F || n == 0x205F ||
  n == 0x3000 || n == 0xFEFF

/-- Model of JavaScript `s.trim()` on a list of characters. -/
def jsTrim (l : List Char) : List Char :=
  ((l.dropWhile isJsWhitespace).reverse.dropWhile isJsWhitespace).reverse

/-- Model of JavaScript `s.trim()` on strings. -/
def jsTrimStr (s : String) : String := String.mk (jsTrim s.data)

/-! ### Elementary list-shape helpers (used to reason about the regex scan) -/

/-- Boolean test that `p` is an initial segment of `l`. -/
def listStarts : List Char → List Char → Bool
  | [], _ => true
  | _ :: _, [] => false
  | p :: ps, c :: cs => p == c && listStarts ps cs

/-- `IsStart p l` : `l` begins with the segment `p`. -/
def IsStart (p l : List Char) : Prop := ∃ r, l = p ++ r

/-- `Within p l` : `p` occurs contiguously somewhere inside `l`. -/
def Within (p l : List Char) : Prop := ∃ a b, l = a ++ p ++ b

/-! ### The two accepted tag names

`src/core.js` scans with the regular expression
`/<(正文|game)>([\s\S]*?)<\/\1>/g`: either tag name, non-greedy inner text,
and a back-reference forcing the closing tag name to equal the opening one. -/

inductive TagName where
  | zhengwen
  | game
deriving DecidableEq, Repr

/-- The opening tag token for each accepted tag name. -/
def openTag : TagName → List Char
  | .zhengwen => ['<', '正', '文', '>']
  | .game => ['<', 'g', 'a', 'm', 'e', '>']

/-- The closing tag token for each accepted tag name (the back-reference
`\1` makes it use the same name as the opening tag). -/
def closeTag : TagName → List Char
  | .zhengwen => ['<', '/', '正', '文', '>']
  | .game => ['<', '/', 'g', 'a', 'm', 'e', '>']

/-! ### First occurrence of a closing tag (the non-greedy `[\s\S]*?`)

`splitAtFirst pat cs` splits `cs` at the first contiguous occurrence of
`pat`, returning the part before it and the part after it; this is exactly
what the lazy quantifier followed by the closing tag does. -/

def splitAtFirst (pat : List Char) : List Char → Option (List Char × List Char)
  | [] => if listStarts pat [] then some ([], []) else none
  | c :: cs =>
    if listStarts pat (c :: cs) then some ([], (c :: cs).drop pat.length)
    else (splitAtFirst pat cs).map (fun p => (c :: p.1, p.2))

/-! ### One regex match attempt at a fixed start position -/

/-- Attempt to match `<T>([\s\S]*?)</T>` for the given tag name at the start
of `cs`: the opening tag must be an initial segment and the closing tag must
occur later; the inner text is everything before the first closing tag. -/
def matchTag (t : TagName) (cs : List Char) : Option (List Char × List Char) :=
  if listStarts (openTag t) cs then splitAtFirst (closeTag t) (cs.drop (openTag t).length)
  else none

/-- One match attempt at the start of `cs`, trying the alternation
`(正文|game)` in order (the two opening tags are mutually exclusive, so the
order cannot matter). -/
def matchAt (cs : List Char) : Option (TagName × List Char × List Char) :=
  match matchTag .zhengwen cs with
  | some r => some (.zhengwen, r)
  | none =>
    match matchTag .game cs with
    | some r => some (.game, r)
    | none => none

/-! ### The scanning loop of `hasValidZhengwenTag`

`regex.exec` in a loop: find the leftmost match from the current position;
if its inner text trims to something non-empty, return `true`; otherwise
continue with the remainder after the match.  The whole match is never
empty, so the loop always advances. -/

/-- The `regex.exec` loop, with explicit fuel.  Each iteration either moves
past a whole match or advances one character, so any fuel of at least the
input's length gives the loop's true result (`scanAux_congr` below). -/
def scanAux : Nat → List Char → Bool
  | 0, _ => false
  | _ + 1, [] => false
  | fuel + 1, c :: cs =>
    match matchAt (c :: cs) with
    | some (_, inner, after) =>
      if 0 < (jsTrim inner).length then true else scanAux fuel after
    | none => scanAux fuel cs

/-- The scanning loop of `hasValidZhengwenTag` on a list of characters. -/
def scanValid (cs : List Char) : Bool := scanAux cs.length cs

/-- A JavaScript value passed to `hasValidZhengwenTag`: either a string or
any non-string value (`typeof text !== 'string'`). -/
inductive JsInput where
  | str (s : String)
  | nonString
deriving Repr

/-- Model of `hasValidZhengwenTag` from `src/core.js`: non-string input is
rejected; otherwise the string is scanned with
`/<(正文|game)>([\s\S]*?)<\/\1>/g`, returning `true` as soon as a match's
inner text has positive length after trimming. -/
def hasValidZhengwenTag : JsInput → Bool
  | .str s => scanValid s.data
  | .nonString => false

/-! ### Declarative reading of the validity predicate (for claim C3)

The specification reads: the text is valid iff it contains at least one
open/close tag pair (of either accepted name) whose inner text trims to
something non-empty, pairs being formed by non-greedy matching — i.e. an
opening tag paired with the nearest following closing tag of the same name,
so the inner text contains no closing tag of that name. -/

/-- Declarative validity: some opening tag is followed by a closing tag of
the same name, the enclosed text contains no earlier closing tag of that
name (non-greedy pairing), and the enclosed text trims to something
non-empty. -/
def specValidPair (cs : List Char) : Prop :=
  ∃ t pre inner post,
    cs = pre ++ openTag t ++ inner ++ closeTag t ++ post ∧
    ¬ Within (closeTag t) inner ∧
    0 < (jsTrim inner).length

/-! ### The retry controller (`src/controller.js`, class `AutoRetryController`)

State fields mirror the class's private fields.  The scheduler is modelled
by a single pending-timer slot holding its firing deadline and the data the
`setTimeout` callback closes over; `log` records calls to the logging
collaborator and `regenInvocations` records each invocation of the opaque
regenerate action as a pair (scheduling time, invocation time). -/

/-- Raw values returned by the host's `getSettings()`; `none` on the numeric
fields models an absent or non-finite value, `Option Bool` models fields
compared with strict equality (`=== true`). -/
structure RawSettings where
  enabled : Option Bool := none
  maxRetries : Option Int := none
  cooldownMs : Option Int := none
  stopOnManualRegen : Option Bool := none
deriving Repr, DecidableEq

/-- Settings after `#readSettings()` normalisation. -/
structure Settings where
  enabled : Bool
  maxRetries : Nat
  cooldownMs : Nat
  stopOnManualRegen : Bool
deriving Repr, DecidableEq

/-- Model of `#readSettings()`: `enabled`/`stopOnManualRegen` are `=== true`
comparisons; the numeric fields are clamped with
`Number.isFinite(v) ? Math.max(0, Math.floor(v)) : 0` (on integers
`Int.toNat` is exactly `max 0`). -/
def readSettings (raw : RawSettings) : Settings :=
  { enabled := raw.enabled == some true
    maxRetries := match raw.maxRetries with | some v => v.toNat | none => 0
    cooldownMs := match raw.cooldownMs with | some v => v.toNat | none => 0
    stopOnManualRegen := raw.stopOnManualRegen == some true }

/-- Observable calls to the logging collaborator. -/
inductive LogEntry where
  | check (messageKey : String) (valid : Bool) (retryCount maxRetries : Nat)
  | retryScheduled (messageKey : String) (attempt maxRetries cooldownMs : Nat)
  | regenClick (messageKey : String) (attempt : Nat)
  | maxRetriesReached (messageKey : String) (maxRetries : Nat)
  | manualRegenDetected
  | actionError
deriving Repr, DecidableEq

/-- The single pending retry timer: its deadline and the data captured by
the `setTimeout` callback. -/
structure TimerInfo where
  fireAt : Nat
  scheduledAt : Nat
  messageKey : String
  attempt : Nat
deriving Repr, DecidableEq

/-- The private fields of `AutoRetryController`, plus the observation
fields `log` and `regenInvocations`. -/
structure CtrlState where
  disposed : Bool := false
  isGenerating : Bool := false
  pendingTimer : Option TimerInfo := none
  retryCount : Nat := 0
  lastMessageKey : Option String := none
  suppressedByManualRegen : Bool := false
  loggedMaxRetriesMessageKey : Option String := none
  loggedCheckMessageKey : Option String := none
  loggedCheckValid : Option Bool := none
  log : List LogEntry := []
  regenInvocations : List (Nat × Nat) := []
deriving Repr, DecidableEq

/-- `#cancelPending()`: clear the pending timer slot (the scheduler's
`clearTimeout` cannot fail in this model, so the source's defensive
`try/catch` around it has no observable effect). -/
def cancelPending (s : CtrlState) : CtrlState := { s with pendingTimer := none }

/-- `dispose()`. -/
def ctrlDispose (s : CtrlState) : CtrlState :=
  cancelPending { s with disposed := true }

/-- `onGenerationStarted()`. -/
def ctrlGenStarted (s : CtrlState) : CtrlState :=
  cancelPending { s with isGenerating := true }

/-- `#reset(reason)`, used by `onUserMessageSent()` and `onChatChanged()`. -/
def ctrlReset (s : CtrlState) : CtrlState :=
  cancelPending
    { s with retryCount := 0, lastMessageKey := none,
             suppressedByManualRegen := false, isGenerating := false,
             loggedMaxRetriesMessageKey := none, loggedCheckMessageKey := none,
             loggedCheckValid := none }

/-- `onManualRegenerate()`. -/
def ctrlManualRegenerate (raw : RawSettings) (s : CtrlState) : CtrlState :=
  if !(readSettings raw).stopOnManualRegen then s
  else
    cancelPending
      { s with suppressedByManualRegen := true, retryCount := 0,
               loggedMaxRetriesMessageKey := none, loggedCheckMessageKey := none,
               loggedCheckValid := none, log := s.log ++ [.manualRegenDetected] }

/-- `onGenerationEnded(event)`: the retry decision.  `now` is the current
virtual time (used to stamp the scheduled timer); settings are re-read from
`raw` on entry, exactly as the source calls `#readSettings()`. -/
def ctrlGenEnded (raw : RawSettings) (now : Nat) (messageKey messageText : String)
    (s0 : CtrlState) : CtrlState :=
  let s := { s0 with isGenerating := false }
  if s.disposed then s
  else
    let settings := readSettings raw
    if !settings.enabled then cancelPending s
    else if settings.stopOnManualRegen && s.suppressedByManualRegen then s
    else if messageKey = "" then s
    else
      let s :=
        if s.lastMessageKey ≠ some messageKey then
          cancelPending
            { s with retryCount := 0, lastMessageKey := some messageKey,
                     loggedMaxRetriesMessageKey := none }
        else s
      let valid := scanValid messageText.data
      let s :=
        if s.loggedCheckMessageKey ≠ some messageKey ∨ s.loggedCheckValid ≠ some valid then
          { s with loggedCheckMessageKey := some messageKey,
                   loggedCheckValid := some valid,
                   log := s.log ++ [.check messageKey valid s.retryCount settings.maxRetries] }
        else s
      if valid then
        cancelPending { s with retryCount := 0, loggedMaxRetriesMessageKey := none }
      else if s.pendingTimer.isSome then s
      else if settings.maxRetries ≤ s.retryCount then
        if s.loggedMaxRetriesMessageKey ≠ some messageKey then
          { s with loggedMaxRetriesMessageKey := some messageKey,
                   log := s.log ++ [.maxRetriesReached messageKey settings.maxRetries] }
        else s
      else if s.isGenerating then s
      else
        let attempt := s.retryCount + 1
        { s with retryCount := attempt,
                 log := s.log ++ [.retryScheduled messageKey attempt settings.maxRetries settings.cooldownMs],
                 pendingTimer := some { fireAt := now + settings.cooldownMs, scheduledAt := now,
                                        messageKey := messageKey, attempt := attempt } }

/-- The body of the scheduled `setTimeout` callback: clear the timer slot,
re-read settings, re-check the guards, then invoke the regenerate action
inside `try { ... } catch (err) { logger.error(err) }`.  `regenThrows`
says whether the opaque action throws when invoked; `now` is the virtual
time at which the callback runs. -/
def fireTimer (raw : RawSettings) (now : Nat) (regenThrows : Bool)
    (s0 : CtrlState) : CtrlState :=
  match s0.pendingTimer with
  | none => s0
  | some t =>
    let s := { s0 with pendingTimer := none }
    if s.disposed then s
    else
      let settings := readSettings raw
      if !settings.enabled then s
      else if settings.stopOnManualRegen && s.suppressedByManualRegen then s
      else
        let s := { s with log := s.log ++ [.regenClick t.messageKey t.attempt],
                          regenInvocations := s.regenInvocations ++ [(t.scheduledAt, now)] }
        if regenThrows then { s with log := s.log ++ [.actionError] } else s

/-- Virtual time plus controller state: the test scheduler's clock together
with the controller under test. -/
structure CtrlSys where
  now : Nat := 0
  st : CtrlState := {}
deriving Repr, DecidableEq

/-- Events delivered to the controller, plus clock advancement (which fires
the pending timer when its deadline is reached, as the fake scheduler in the
repository's tests does). -/
inductive CtrlEvent where
  | genStarted
  | genEnded (messageKey messageText : String)
  | userSent
  | chatChanged
  | manualRegen
  | advance (ms : Nat)
deriving Repr, DecidableEq

def ctrlStep (raw : RawSettings) (regenThrows : Bool) (sys : CtrlSys) : CtrlEvent → CtrlSys
  | .genStarted => { sys with st := ctrlGenStarted sys.st }
  | .genEnded k txt => { sys with st := ctrlGenEnded raw sys.now k txt sys.st }
  | .userSent => { sys with st := ctrlReset sys.st }
  | .chatChanged => { sys with st := ctrlReset sys.st }
  | .manualRegen => { sys with st := ctrlManualRegenerate raw sys.st }
  | .advance ms =>
    let now := sys.now + ms
    match sys.st.pendingTimer with
    | some t =>
      if t.fireAt ≤ now then { now := now, st := fireTimer raw now regenThrows sys.st }
      else { sys with now := now }
    | none => { sys with now := now }

def ctrlRun (raw : RawSettings) (regenThrows : Bool) (es : List CtrlEvent)
    (sys : CtrlSys) : CtrlSys :=
  es.foldl (ctrlStep raw regenThrows) sys

/-- The canonical persistently-invalid trace: `k` rounds of an invalid
generation result at a fixed slot followed by a full cooldown wait. -/
def retryCycleEvents (messageKey : String) (texts : Nat → String) (cooldown : Nat) :
    Nat → List CtrlEvent
  | 0 => []
  | k + 1 =>
    retryCycleEvents messageKey texts cooldown k ++
      [.genEnded messageKey (texts k), .advance cooldown]

/-! ### The runtime (`src/runtime.js`)

Chat transport values: an entry may be `null` (outer `Option`), its `mes`
may be a non-string (inner `Option`); the context's `chatId` may be a
non-string and its `chat` may not be an array. -/

structure ChatEntry where
  is_user : Bool := false
  is_system : Bool := false
  mes : Option String := none
deriving Repr, DecidableEq

abbrev Chat := List (Option ChatEntry)

structure Context where
  chatId : Option String := none
  chat : Option Chat := none
deriving Repr, DecidableEq

/-- Backward scan of `findLatestAssistantMessage`, over the reversed chat;
`i` is the original index of the head entry. -/
def latestFrom : Chat → Nat → Option (Nat × String)
  | [], _ => none
  | e :: rest, i =>
    match e with
    | none => latestFrom rest (i - 1)
    | some m =>
      if m.is_system then latestFrom rest (i - 1)
      else if m.is_user then none
      else
        match m.mes with
        | some text => some (i, text)
        | none => none

/-- `findLatestAssistantMessage(chat)`: scan backward skipping null/system
entries; stop at the first user entry (no latest assistant), else return the
entry's index and text when `mes` is a string, else nothing. -/
def findLatestAssistantMessage : Option Chat → Option (Nat × String)
  | none => none
  | some entries => latestFrom entries.reverse (entries.length - 1)

/-- Backward scan of `computeTargetAssistantIndex`; falling off the end of
the loop returns index 0. -/
def targetFrom : Chat → Nat → Nat
  | [], _ => 0
  | e :: rest, i =>
    match e with
    | none => targetFrom rest (i - 1)
    | some m =>
      if m.is_system then targetFrom rest (i - 1)
      else if m.is_user then i + 1
      else i

/-- `computeTargetAssistantIndex(chat)`: the slot the next assistant reply
is expected at (`none` models the non-array `null` return). -/
def computeTargetAssistantIndex : Option Chat → Option Nat
  | none => none
  | some entries => some (targetFrom entries.reverse (entries.length - 1))

/-- `readAssistantTextAt(chat, index)`: in-bounds, non-null, non-system,
non-user entry; a non-string `mes` reads as `''`. -/
def readAssistantTextAt (chat : Option Chat) (index : Int) : Option String :=
  match chat with
  | none => none
  | some entries =>
    if index < 0 ∨ (entries.length : Int) ≤ index then none
    else
      match entries[index.toNat]? with
      | none => none
      | some none => none
      | some (some m) =>
        if m.is_system ∨ m.is_user then none
        else some (m.mes.getD "")

def SETTLE_DELAY_MS : Nat := 250

/-- The cooperating automation's settings object
(`extension_settings['auto-continue-timeskip']`). -/
structure AutoContinueSettings where
  enabled : Option Bool := none
  autoContinue : Option Bool := none
  selectedOption : Option String := none
  timeskipOptions : Option (List (Option String)) := none
deriving Repr, DecidableEq

/-- `isAutoContinueTimeskipSendAttempt(messageText, autoContinueSettings)`:
classify a send attempt as a timeskip-style programmatic send. -/
def isAutoContinueTimeskipSendAttempt (messageText : Option String)
    (acs : Option AutoContinueSettings) : Bool :=
  match acs with
  | none => false
  | some a =>
    if a.enabled == some false then false
    else if a.autoContinue != some true then false
    else
      let normalized := jsTrimStr (messageText.getD "")
      if normalized = "" then false
      else
        let selectedOption := jsTrimStr (a.selectedOption.getD "")
        if selectedOption ≠ "" ∧ normalized = selectedOption then true
        else
          match a.timeskipOptions with
          | some opts => opts.any (fun o => normalized == jsTrimStr (o.getD ""))
          | none => false

/-- The data the settle `setTimeout` callback closes over, plus its firing
deadline (`now + SETTLE_DELAY_MS` at scheduling time). -/
structure SettleInfo where
  seq : Nat
  chatId : String
  targetIndex : Int
  fireAt : Nat
deriving Repr, DecidableEq

/-- The `generationSession` record of `createAutoRetryRuntime`. -/
structure GenSession where
  seq : Nat := 0
  chatId : Option String := none
  targetIndex : Option Int := none
  isGenerating : Bool := false
  settle : Option SettleInfo := none
deriving Repr, DecidableEq

/-- The `autoContinueGate` record of `createAutoRetryRuntime`. -/
structure GateState where
  chatId : Option String := none
  assistantIndex : Option Int := none
  messageKey : Option String := none
  assistantValid : Bool := true
  consumedForMessageKey : Option String := none
deriving Repr, DecidableEq

/-- The whole runtime state: virtual clock, generation session, gate, and
the owned controller. -/
structure RtState where
  now : Nat := 0
  session : GenSession := {}
  gate : GateState := {}
  ctrl : CtrlState := {}
deriving Repr, DecidableEq

/-- `makeMessageKey(chatId, index)` = `` `${chatId}:${index}` ``. -/
def makeMessageKey (chatId : String) (index : Int) : String :=
  chatId ++ ":" ++ toString index

/-- `updateAutoContinueGate({chatId, assistantIndex, assistantText})`. -/
def updateAutoContinueGate (chatId : String) (assistantIndex : Int)
    (assistantText : String) (g : GateState) : GateState :=
  let messageKey := makeMessageKey chatId assistantIndex
  let g :=
    if g.messageKey ≠ some messageKey then
      { g with chatId := some chatId, assistantIndex := some assistantIndex,
               messageKey := some messageKey, consumedForMessageKey := none }
    else g
  { g with assistantValid := scanValid assistantText.data }

/-- `resetGenerationOnly()`: bump the sequence number, clear the session,
cancel any pending settle.  The gate is deliberately left untouched. -/
def resetGenerationOnly (s : RtState) : RtState :=
  { s with session := { seq := s.session.seq + 1, chatId := none, targetIndex := none,
                        isGenerating := false, settle := none } }

/-- `resetGenerationSession()`: `resetGenerationOnly` plus resetting the
gate to its initial values. -/
def resetGenerationSession (s : RtState) : RtState :=
  let s := resetGenerationOnly s
  { s with gate := {} }

/-- `onGenerationStarted` handler. -/
def rtGenStarted (ctx : Context) (s : RtState) : RtState :=
  let chatId := ctx.chatId.getD "unknown"
  let targetIndex : Int := ((computeTargetAssistantIndex ctx.chat).getD 0 : Nat)
  let s := { s with session := { seq := s.session.seq + 1, chatId := some chatId,
                                 targetIndex := some targetIndex, isGenerating := true,
                                 settle := none } }
  let s := { s with gate := updateAutoContinueGate chatId targetIndex "" s.gate }
  { s with ctrl := ctrlGenStarted s.ctrl }

/-- The target index resolved by `onGenerationEnded`: reuse the session's
expected index when the chat matches and the stored index is an integer,
else recompute from the conversation. -/
def genEndedTargetIndex (ctx : Context) (s : RtState) : Int :=
  let chatId := ctx.chatId.getD "unknown"
  if s.session.chatId = some chatId then
    match s.session.targetIndex with
    | some i => i
    | none => ((computeTargetAssistantIndex ctx.chat).getD 0 : Nat)
  else ((computeTargetAssistantIndex ctx.chat).getD 0 : Nat)

/-- `onGenerationEnded` handler.  When the target slot has no materialised
text yet, a settle timer is scheduled that closes over the current sequence
number, chat id and target index. -/
def rtGenEnded (raw : RawSettings) (ctx : Context) (s : RtState) : RtState :=
  let chatId := ctx.chatId.getD "unknown"
  let targetIndex : Int := genEndedTargetIndex ctx s
  let s := { s with session := { s.session with
    chatId := some chatId, targetIndex := some targetIndex, isGenerating := false } }
  match readAssistantTextAt ctx.chat targetIndex with
  | some text =>
    let s := { s with session := { s.session with settle := none } }
    let s := { s with gate := updateAutoContinueGate chatId targetIndex text s.gate }
    { s with ctrl := ctrlGenEnded raw s.now (makeMessageKey chatId targetIndex) text s.ctrl }
  | none =>
    { s with session := { s.session with
        settle := some { seq := s.session.seq, chatId := chatId,
                         targetIndex := targetIndex, fireAt := s.now + SETTLE_DELAY_MS } } }

/-- The body of the settle `setTimeout` callback: clear the timer slot; a
stale sequence number or a changed chat makes it a no-op; otherwise a still
missing slot text reads as `''` and is fed to the gate and controller. -/
def settleFire (raw : RawSettings) (ctx : Context) (s : RtState) : RtState :=
  match s.session.settle with
  | none => s
  | some t =>
    let s := { s with session := { s.session with settle := none } }
    if s.session.seq ≠ t.seq then s
    else
      let settledChatId := ctx.chatId.getD "unknown"
      if settledChatId ≠ t.chatId then s
      else
        let settledText := (readAssistantTextAt ctx.chat t.targetIndex).getD ""
        let s := { s with gate := updateAutoContinueGate t.chatId t.targetIndex settledText s.gate }
        { s with ctrl := ctrlGenEnded raw s.now (makeMessageKey t.chatId t.targetIndex)
                           settledText s.ctrl }

/-- `onCharacterMessageRendered(messageId)` handler; `messageId = none`
models a `Number(messageId)` that is not an integer. -/
def rtRendered (raw : RawSettings) (ctx : Context) (messageId : Option Int)
    (s : RtState) : RtState :=
  match ctx.chat with
  | none => s
  | some chat =>
    match messageId with
    | none => s
    | some id =>
      if id < 0 ∨ (chat.length : Int) ≤ id then s
      else
        match findLatestAssistantMessage (some chat) with
        | none => s
        | some (li, _) =>
          if (li : Int) ≠ id then s
          else
            match chat[id.toNat]? with
            | none => s
            | some none => s
            | some (some m) =>
              if m.is_system ∨ m.is_user then s
              else
                let chatId := ctx.chatId.getD "unknown"
                let messageText := m.mes.getD ""
                let s :=
                  if s.session.chatId = some chatId ∧ s.session.targetIndex = some id then
                    { s with session := { s.session with settle := none, isGenerating := false } }
                  else s
                let s := { s with gate := updateAutoContinueGate chatId id messageText s.gate }
                { s with ctrl := ctrlGenEnded raw s.now (makeMessageKey chatId id)
                                   messageText s.ctrl }

/-- `onMessageSent` handler: resets the generation session and the
controller; the gate is deliberately not cleared (see the source comment:
queued duplicate sends for the same reply must stay blocked). -/
def rtMessageSent (s : RtState) : RtState :=
  let s := resetGenerationOnly s
  { s with ctrl := ctrlReset s.ctrl }

/-- `onChatChanged` handler: full reset including the gate. -/
def rtChatChanged (s : RtState) : RtState :=
  let s := resetGenerationSession s
  { s with ctrl := ctrlReset s.ctrl }

/-- A prospective send attempt evaluated by the gate. -/
structure SendAttempt where
  isTrusted : Bool
  messageText : Option String
  autoContinueSettings : Option AutoContinueSettings
deriving Repr, DecidableEq

/-- `shouldBlockAutoContinueTimeskipSend({isTrusted, messageText,
autoContinueSettings})`: returns the block decision and the state after the
call (the gate is re-read from the current context and the consumed-slot
mark may be set). -/
def shouldBlockAutoContinueTimeskipSend (ctx : Context) (att : SendAttempt)
    (s : RtState) : Bool × RtState :=
  if att.isTrusted then (false, s)
  else if !isAutoContinueTimeskipSendAttempt att.messageText att.autoContinueSettings then
    (false, s)
  else if s.session.isGenerating || s.session.settle.isSome then (true, s)
  else
    match s.gate.messageKey with
    | none => (false, s)
    | some _ =>
      let chatId := ctx.chatId.getD "unknown"
      if s.gate.chatId ≠ some chatId then (false, s)
      else
        let s :=
          match s.gate.assistantIndex with
          | some ai =>
            let assistantText := (readAssistantTextAt ctx.chat ai).getD ""
            { s with gate := updateAutoContinueGate chatId ai assistantText s.gate }
          | none => s
        if !s.gate.assistantValid then (true, s)
        else if s.gate.consumedForMessageKey = s.gate.messageKey then (true, s)
        else (false, { s with gate := { s.gate with consumedForMessageKey := s.gate.messageKey } })

/-- Repeated send attempts against the (re-read) same context, returning
the list of block decisions in order. -/
def attemptSeq (ctx : Context) (att : SendAttempt) : Nat → RtState → List Bool
  | 0, _ => []
  | n + 1, s =>
    let r := shouldBlockAutoContinueTimeskipSend ctx att s
    r.1 :: attemptSeq ctx att n r.2

/-! ### Verification predicate (proof apparatus for claim C1) -/

/-- Inductive invariant for the retry-budget safety argument: the controller
is live, the budget bound holds, every recorded invocation and the pending
timer are accounted against the budget, recorded invocations respect the
cooldown separation, a pending timer fires a full cooldown after its
scheduling time, and the slot memory is either still unset (with everything
at zero) or the fixed slot under consideration. -/
def retryInv (N C : Nat) (key : String) (sys : CtrlSys) : Prop :=
  sys.st.disposed = false ∧
  sys.st.retryCount ≤ N ∧
  sys.st.regenInvocations.length +
    (if sys.st.pendingTimer.isSome then 1 else 0) ≤ sys.st.retryCount ∧
  (∀ p ∈ sys.st.regenInvocations, p.1 + C ≤ p.2) ∧
  (∀ ti, sys.st.pendingTimer = some ti → ti.fireAt = ti.scheduledAt + C) ∧
  (sys.st.lastMessageKey = none →
    sys.st.retryCount = 0 ∧ sys.st.regenInvocations = [] ∧ sys.st.pendingTimer = none) ∧
  (sys.st.lastMessageKey = none ∨ sys.st.lastMessageKey = some key)

/-! ## Part 2 — Theorems -/

theorem jsTrim_eq_nil_iff (l : List Char) :
    jsTrim l = [] ↔ ∀ c ∈ l, isJsWhitespace c := by
  unfold jsTrim
  rw [List.reverse_eq_nil_iff, List.dropWhile_eq_nil_iff]
  have hsplit := List.takeWhile_append_dropWhile (p := isJsWhitespace) (l := l)
  constructor
  · intro h c hc
    rw [← hsplit] at hc
    rcases List.mem_append.mp hc with h1 | h2
    · exact List.mem_takeWhile_imp h1
    · exact h _ (List.mem_reverse.mpr h2)
  · intro h c hc
    have hcl : c ∈ l := by
      rw [← hsplit]
      exact List.mem_append.mpr (Or.inr (List.mem_reverse.mp hc))
    exact h _ hcl

theorem listStarts_iff (p l : List Char) : listStarts p l = true ↔ IsStart p l := by
  induction p generalizing l with
  | nil => simp [listStarts, IsStart]
  | cons x ps ih =>
    cases l with
    | nil =>
      simp only [listStarts, IsStart]
      constructor
      · intro h; cases h
      · rintro ⟨r, hr⟩; cases hr
    | cons c cs =>
      simp only [listStarts, Bool.and_eq_true, beq_iff_eq, ih, IsStart]
      constructor
      · rintro ⟨rfl, r, rfl⟩; exact ⟨r, rfl⟩
      · rintro ⟨r, hr⟩
        rw [List.cons_append] at hr
        injection hr with h1 h2
        exact ⟨h1.symm, r, h2⟩

theorem IsStart.of_append {p a b : List Char} (h : IsStart p (a ++ b))
    (hlen : p.length ≤ a.length) : IsStart p a := by
  obtain ⟨r, hr⟩ := h
  refine ⟨a.drop p.length, ?_⟩
  have := congrArg (List.take p.length) hr
  rw [List.take_append_of_le_length hlen, List.take_append_of_le_length le_rfl,
    List.take_length] at this
  conv_lhs => rw [← List.take_append_drop p.length a]
  rw [this]

theorem openTag_length_pos (t : TagName) : 0 < (openTag t).length := by
  cases t <;> simp [openTag]

theorem closeTag_length_pos (t : TagName) : 0 < (closeTag t).length := by
  cases t <;> simp [closeTag]

theorem splitAtFirst_eq (pat : List Char) {cs a b : List Char}
    (h : splitAtFirst pat cs = some (a, b)) : cs = a ++ pat ++ b := by
  induction cs generalizing a with
  | nil =>
    simp only [splitAtFirst] at h
    by_cases hs : listStarts pat [] = true
    · rw [if_pos hs] at h
      injection h with h'
      injection h' with h1 h2
      obtain ⟨r, hr⟩ := (listStarts_iff _ _).mp hs
      obtain ⟨hp, hr'⟩ := List.append_eq_nil.mp hr.symm
      subst hp
      rw [← h1, ← h2]
      simp
    · rw [if_neg hs] at h
      cases h
  | cons c cs' ih =>
    simp only [splitAtFirst] at h
    by_cases hs : listStarts pat (c :: cs') = true
    · rw [if_pos hs] at h
      injection h with h'
      injection h' with h1 h2
      obtain ⟨r, hr⟩ := (listStarts_iff _ _).mp hs
      rw [← h1, ← h2, hr]
      simp [List.drop_left]
    · rw [if_neg hs] at h
      cases a with
      | nil =>
        simp only [Option.map_eq_some'] at h
        obtain ⟨p, _, hp2⟩ := h
        cases hp2
      | cons a0 a' =>
        simp only [Option.map_eq_some'] at h
        obtain ⟨p, hp1, hp2⟩ := h
        injection hp2 with h1 h2
        injection h1 with h1a h1b
        subst h1a
        have := ih (a := a') (by rw [hp1, ← h1b, ← h2])
        rw [List.cons_append, List.cons_append, this]

theorem splitAtFirst_minimal (pat : List Char) {cs a b : List Char}
    (h : splitAtFirst pat cs = some (a, b)) :
    ∀ q < a.length, ¬ IsStart pat (cs.drop q) := by
  induction cs generalizing a with
  | nil =>
    intro q hq
    simp only [splitAtFirst] at h
    by_cases hs : listStarts pat [] = true
    · rw [if_pos hs] at h
      injection h with h'
      injection h' with h1 _
      rw [← h1] at hq
      simp at hq
    · rw [if_neg hs] at h
      cases h
  | cons c cs' ih =>
    intro q hq
    simp only [splitAtFirst] at h
    by_cases hs : listStarts pat (c :: cs') = true
    · rw [if_pos hs] at h
      injection h with h'
      injection h' with h1 _
      rw [← h1] at hq
      simp at hq
    · rw [if_neg hs] at h
      cases a with
      | nil => simp at hq
      | cons a0 a' =>
        simp only [Option.map_eq_some'] at h
        obtain ⟨p, hp1, hp2⟩ := h
        injection hp2 with h1 h2
        injection h1 with h1a h1b
        cases q with
        | zero =>
          intro hstart
          exact hs ((listStarts_iff _ _).mpr hstart)
        | succ q' =>
          simp only [List.length_cons, Nat.succ_lt_succ_iff] at hq
          rw [List.drop_succ_cons]
          exact ih (a := a') (by rw [hp1, ← h1b, ← h2]) q' hq

theorem splitAtFirst_isSome (pat : List Char) {x y cs : List Char}
    (h : cs = x ++ pat ++ y) : (splitAtFirst pat cs).isSome := by
  induction x generalizing cs with
  | nil =>
    simp only [List.nil_append] at h
    have hst : listStarts pat cs = true := (listStarts_iff _ _).mpr ⟨y, h⟩
    cases cs with
    | nil => simp only [splitAtFirst, if_pos hst, Option.isSome_some]
    | cons c cs' => simp only [splitAtFirst, if_pos hst, Option.isSome_some]
  | cons c x' ih =>
    rw [List.cons_append, List.cons_append] at h
    subst h
    simp only [splitAtFirst]
    by_cases hs : listStarts pat (c :: (x' ++ pat ++ y)) = true
    · rw [if_pos hs]; rfl
    · rw [if_neg hs]
      have := ih rfl
      simp only [Option.isSome_map']
      exact this

theorem splitAtFirst_length (pat : List Char) {cs a b : List Char}
    (h : splitAtFirst pat cs = some (a, b)) :
    a.length + pat.length + b.length = cs.length := by
  have := splitAtFirst_eq pat h
  rw [this]
  simp [List.length_append]
  omega

theorem matchTag_eq {t : TagName} {cs inner after : List Char}
    (h : matchTag t cs = some (inner, after)) :
    cs = openTag t ++ inner ++ closeTag t ++ after := by
  unfold matchTag at h
  by_cases hs : listStarts (openTag t) cs = true
  · rw [if_pos hs] at h
    obtain ⟨r, hr⟩ := (listStarts_iff _ _).mp hs
    have hdrop : cs.drop (openTag t).length = r := by rw [hr, List.drop_left]
    rw [hdrop] at h
    have := splitAtFirst_eq _ h
    rw [hr, this]
    simp
  · rw [if_neg hs] at h; cases h

theorem matchTag_minimal {t : TagName} {cs inner after : List Char}
    (h : matchTag t cs = some (inner, after)) :
    ∀ q < inner.length, ¬ IsStart (closeTag t) ((cs.drop (openTag t).length).drop q) := by
  unfold matchTag at h
  by_cases hs : listStarts (openTag t) cs = true
  · rw [if_pos hs] at h
    exact splitAtFirst_minimal _ h
  · rw [if_neg hs] at h; cases h

theorem matchAt_eq {cs : List Char} {t : TagName} {inner after : List Char}
    (h : matchAt cs = some (t, inner, after)) :
    cs = openTag t ++ inner ++ closeTag t ++ after := by
  unfold matchAt at h
  cases hz : matchTag .zhengwen cs with
  | some r =>
    rw [hz] at h
    injection h with h'
    injection h' with h1 h2
    subst h1
    obtain ⟨i, a⟩ := r
    injection h2 with h2a h2b
    subst h2a; subst h2b
    exact matchTag_eq hz
  | none =>
    rw [hz] at h
    cases hg : matchTag .game cs with
    | some r =>
      rw [hg] at h
      injection h with h'
      injection h' with h1 h2
      subst h1
      obtain ⟨i, a⟩ := r
      injection h2 with h2a h2b
      subst h2a; subst h2b
      exact matchTag_eq hg
    | none => rw [hg] at h; cases h

theorem matchAt_length {cs : List Char} {t : TagName} {inner after : List Char}
    (h : matchAt cs = some (t, inner, after)) : after.length < cs.length := by
  have := matchAt_eq h
  have hlen := congrArg List.length this
  simp only [List.length_append] at hlen
  have h1 := openTag_length_pos t
  have h2 := closeTag_length_pos t
  omega

theorem scanAux_congr :
    ∀ (f : Nat) {g : Nat} (cs : List Char), cs.length ≤ f → cs.length ≤ g →
      scanAux f cs = scanAux g cs := by
  intro f
  induction f with
  | zero =>
    intro g cs hf _
    have : cs = [] := List.eq_nil_of_length_eq_zero (Nat.le_zero.mp hf)
    subst this
    cases g <;> rfl
  | succ f' ih =>
    intro g cs hf hg
    cases cs with
    | nil => cases g <;> rfl
    | cons c cs' =>
      cases g with
      | zero => simp at hg
      | succ g' =>
        simp only [scanAux]
        cases hm : matchAt (c :: cs') with
        | some r =>
          obtain ⟨t, inner, after⟩ := r
          simp only
          by_cases hw : 0 < (jsTrim inner).length
          · rw [if_pos hw, if_pos hw]
          · rw [if_neg hw, if_neg hw]
            have hlen := matchAt_length hm
            simp only [List.length_cons] at hlen hf hg
            exact ih after (by omega) (by omega)
        | none =>
          simp only
          simp only [List.length_cons] at hf hg
          exact ih cs' (by omega) (by omega)

theorem scanValid_nil : scanValid [] = false := rfl

theorem scanValid_cons_some {c : Char} {cs inner after : List Char} {t : TagName}
    (h : matchAt (c :: cs) = some (t, inner, after)) :
    scanValid (c :: cs) =
      if 0 < (jsTrim inner).length then true else scanValid after := by
  unfold scanValid
  simp only [List.length_cons, scanAux, h]
  by_cases hw : 0 < (jsTrim inner).length
  · rw [if_pos hw, if_pos hw]
  · rw [if_neg hw, if_neg hw]
    have hlen := matchAt_length h
    simp only [List.length_cons] at hlen
    exact scanAux_congr cs.length after (by omega) le_rfl

theorem scanValid_cons_none {c : Char} {cs : List Char}
    (h : matchAt (c :: cs) = none) :
    scanValid (c :: cs) = scanValid cs := by
  unfold scanValid
  simp only [List.length_cons, scanAux, h]

theorem openTag_start_inj {t t' : TagName} {l : List Char}
    (h : IsStart (openTag t) l) (h' : IsStart (openTag t') l) : t = t' := by
  obtain ⟨r, hr⟩ := h
  obtain ⟨r', hr'⟩ := h'
  rw [hr] at hr'
  cases t <;> cases t' <;> first
  | rfl
  | (exfalso
     simp only [openTag, List.cons_append] at hr'
     injection hr' with _ h2
     injection h2 with h3 _
     exact absurd h3 (by decide))

theorem close_append_ne_open_append (t t1 : TagName) (z x : List Char) :
    closeTag t1 ++ z ≠ openTag t ++ x := by
  intro h
  cases t <;> cases t1 <;>
    (simp only [closeTag, openTag, List.cons_append] at h
     injection h with _ h
     injection h with h2 _
     exact absurd h2 (by decide))

theorem ws_append_ne_open (t : TagName) {w : List Char} (z x : List Char)
    (hws : ∀ c ∈ w, isJsWhitespace c) (hne : w ≠ []) :
    w ++ z ≠ openTag t ++ x := by
  cases w with
  | nil => exact absurd rfl hne
  | cons w0 w' =>
    intro h
    have hw0 : isJsWhitespace w0 = true := hws w0 (List.mem_cons_self _ _)
    cases t <;>
      (simp only [openTag, List.cons_append] at h
       injection h with h1 _
       rw [h1] at hw0
       exact absurd hw0 (by decide))

theorem openTag_drop_head (t1 : TagName) (k : Nat) (hk0 : 0 < k)
    (hk : k < (openTag t1).length) :
    ∃ c rest, (openTag t1).drop k = c :: rest ∧ (c == '<') = false := by
  cases t1 <;> simp only [openTag, List.length_cons, List.length_nil] at hk <;>
    interval_cases k <;> exact ⟨_, _, rfl, rfl⟩

theorem closeTag_drop_head (t1 : TagName) (k : Nat) (hk0 : 0 < k)
    (hk : k < (closeTag t1).length) :
    ∃ c rest, (closeTag t1).drop k = c :: rest ∧ (c == '<') = false := by
  cases t1 <;> simp only [closeTag, List.length_cons, List.length_nil] at hk <;>
    interval_cases k <;> exact ⟨_, _, rfl, rfl⟩

theorem openDrop_append_ne_open_append (t t1 : TagName) {k : Nat} (hk0 : 0 < k)
    (hk : k < (openTag t1).length) (z x : List Char) :
    (openTag t1).drop k ++ z ≠ openTag t ++ x := by
  intro h
  obtain ⟨c0, rest, hdrop, hc0⟩ := openTag_drop_head t1 k hk0 hk
  rw [hdrop, List.cons_append] at h
  cases t <;>
    (simp only [openTag, List.cons_append] at h
     injection h with h1 _
     rw [h1] at hc0
     exact absurd hc0 (by decide))

theorem closeDrop_append_ne_open_append (t t1 : TagName) {k : Nat} (hk0 : 0 < k)
    (hk : k < (closeTag t1).length) (z x : List Char) :
    (closeTag t1).drop k ++ z ≠ openTag t ++ x := by
  intro h
  obtain ⟨c0, rest, hdrop, hc0⟩ := closeTag_drop_head t1 k hk0 hk
  rw [hdrop, List.cons_append] at h
  cases t <;>
    (simp only [openTag, List.cons_append] at h
     injection h with h1 _
     rw [h1] at hc0
     exact absurd hc0 (by decide))

theorem closeTag_borderFree (t : TagName) :
    ∀ k, 0 < k → k < (closeTag t).length → ¬ IsStart ((closeTag t).drop k) (closeTag t) := by
  intro k hk0 hk
  rintro ⟨r, hr⟩
  obtain ⟨c0, rest, hdrop, hc0⟩ := closeTag_drop_head t k hk0 hk
  rw [hdrop, List.cons_append] at hr
  cases t <;>
    (simp only [closeTag] at hr
     injection hr with h1 _
     rw [← h1] at hc0
     exact absurd hc0 (by decide))

/-- First occurrences are unique: if a pattern with no non-trivial border
occurs at the end of `inner` (with no earlier occurrence inside `inner`) and
the same list also splits at a minimal occurrence before `inner1`, then the
two split points coincide. -/
theorem first_occurrence_unique {pat inner post inner1 after : List Char}
    (hbf : ∀ k, 0 < k → k < pat.length → ¬ IsStart (pat.drop k) pat)
    (hnin : ¬ Within pat inner)
    (hmin : ∀ q < inner1.length, ¬ IsStart pat ((inner1 ++ (pat ++ after)).drop q))
    (heq : inner ++ (pat ++ post) = inner1 ++ (pat ++ after)) :
    inner = inner1 := by
  rcases Nat.lt_trichotomy inner.length inner1.length with hlt | heqlen | hgt
  · exfalso
    apply hmin inner.length hlt
    rw [← heq, List.drop_left]
    exact ⟨post, rfl⟩
  · exact (List.append_inj heq heqlen).1
  · exfalso
    have hdrop : (inner ++ (pat ++ post)).drop inner1.length
        = inner.drop inner1.length ++ (pat ++ post) :=
      List.drop_append_of_le_length (le_of_lt hgt)
    have hocc : pat ++ after = inner.drop inner1.length ++ (pat ++ post) := by
      rw [← hdrop, heq, List.drop_left]
    set d := inner.drop inner1.length with hd
    have hdlen : d.length = inner.length - inner1.length := by
      rw [hd, List.length_drop]
    by_cases hcase : pat.length ≤ d.length
    · apply hnin
      have hpd : IsStart pat d := IsStart.of_append ⟨after, hocc.symm⟩ hcase
      obtain ⟨r', hr'⟩ := hpd
      refine ⟨inner.take inner1.length, r', ?_⟩
      conv_lhs => rw [← List.take_append_drop inner1.length inner]
      rw [← hd, hr', List.append_assoc]
    · push_neg at hcase
      have hk0 : 0 < d.length := by omega
      have htake : pat.take d.length = d := by
        have h1 := congrArg (List.take d.length) hocc
        rw [List.take_append_of_le_length (le_of_lt hcase), List.take_left] at h1
        exact h1
      have hdropk : pat.drop d.length ++ after = pat ++ post := by
        have h1 := congrArg (List.drop d.length) hocc
        rw [List.drop_append_of_le_length (le_of_lt hcase), List.drop_left] at h1
        exact h1
      apply hbf d.length hk0 hcase
      refine IsStart.of_append (b := post) ⟨after, hdropk.symm⟩ ?_
      rw [List.length_drop]
      omega

theorem matchAt_matchTag {cs : List Char} {t : TagName} {inner after : List Char}
    (h : matchAt cs = some (t, inner, after)) :
    matchTag t cs = some (inner, after) := by
  unfold matchAt at h
  cases hz : matchTag .zhengwen cs with
  | some r =>
    rw [hz] at h
    obtain ⟨i, a⟩ := r
    injection h with h'
    injection h' with h1 h2
    subst h1
    injection h2 with h2a h2b
    subst h2a; subst h2b
    exact hz
  | none =>
    rw [hz] at h
    cases hg : matchTag .game cs with
    | some r =>
      rw [hg] at h
      obtain ⟨i, a⟩ := r
      injection h with h'
      injection h' with h1 h2
      subst h1
      injection h2 with h2a h2b
      subst h2a; subst h2b
      exact hg
    | none => rw [hg] at h; cases h

theorem matchAt_minimal {cs : List Char} {t : TagName} {inner after : List Char}
    (h : matchAt cs = some (t, inner, after)) :
    ∀ q < inner.length, ¬ IsStart (closeTag t) ((inner ++ (closeTag t ++ after)).drop q) := by
  have hm := matchAt_matchTag h
  have heq := matchTag_eq hm
  have hmin := matchTag_minimal hm
  intro q hq
  have hdrop : cs.drop (openTag t).length = inner ++ (closeTag t ++ after) := by
    rw [heq]
    simp only [List.append_assoc, List.drop_left]
  rw [← hdrop]
  exact hmin q hq

theorem matchAt_not_within {cs : List Char} {t : TagName} {inner after : List Char}
    (h : matchAt cs = some (t, inner, after)) :
    ¬ Within (closeTag t) inner := by
  rintro ⟨a, b, hab⟩
  have hmin := matchAt_minimal h
  have hq : a.length < inner.length := by
    have hlen := congrArg List.length hab
    simp only [List.length_append] at hlen
    have := closeTag_length_pos t
    omega
  apply hmin a.length hq
  have hrw : (inner ++ (closeTag t ++ after)).drop a.length
      = closeTag t ++ (b ++ (closeTag t ++ after)) := by
    rw [hab]
    simp only [List.append_assoc, List.drop_left]
  rw [hrw]
  exact ⟨_, rfl⟩

theorem matchTag_isSome {t : TagName} {cs inner post : List Char}
    (h : cs = openTag t ++ inner ++ closeTag t ++ post) : (matchTag t cs).isSome := by
  have hR : cs = openTag t ++ (inner ++ (closeTag t ++ post)) := by
    simpa only [List.append_assoc] using h
  have hst : listStarts (openTag t) cs = true := (listStarts_iff _ _).mpr ⟨_, hR⟩
  unfold matchTag
  rw [if_pos hst]
  apply splitAtFirst_isSome (x := inner) (y := post)
  rw [hR, List.drop_left]
  simp only [List.append_assoc]

theorem matchAt_isSome {t : TagName} {cs inner post : List Char}
    (h : cs = openTag t ++ inner ++ closeTag t ++ post) : (matchAt cs).isSome := by
  unfold matchAt
  cases hz : matchTag .zhengwen cs with
  | some r => simp
  | none =>
    cases hg : matchTag .game cs with
    | some r => simp
    | none =>
      exfalso
      cases t with
      | zhengwen =>
        have := matchTag_isSome (t := .zhengwen) h
        rw [hz] at this
        simp at this
      | game =>
        have := matchTag_isSome (t := .game) h
        rw [hg] at this
        simp at this

/-- The regex scan soundly reports a non-greedy pair with non-blank inner
text. -/
theorem specValidPair_of_scanValid : ∀ (cs : List Char), scanValid cs = true → specValidPair cs
  | [], h => by rw [scanValid_nil] at h; cases h
  | c :: cs', h => by
    cases hm : matchAt (c :: cs') with
    | some r =>
      obtain ⟨t, inner, after⟩ := r
      rw [scanValid_cons_some hm] at h
      by_cases hw : 0 < (jsTrim inner).length
      · exact ⟨t, [], inner, after, by simpa using matchAt_eq hm, matchAt_not_within hm, hw⟩
      · rw [if_neg hw] at h
        obtain ⟨t', pre', inner', post', hdec, hnin', hw'⟩ :=
          specValidPair_of_scanValid after h
        refine ⟨t', openTag t ++ inner ++ closeTag t ++ pre', inner', post', ?_, hnin', hw'⟩
        rw [matchAt_eq hm, hdec]
        simp only [List.append_assoc]
    | none =>
      rw [scanValid_cons_none hm] at h
      obtain ⟨t', pre', inner', post', hdec, hnin', hw'⟩ := specValidPair_of_scanValid cs' h
      exact ⟨t', c :: pre', inner', post', by rw [hdec]; simp, hnin', hw'⟩
termination_by cs => cs.length
decreasing_by
  all_goals first
    | exact matchAt_length hm
    | (simp only [List.length_cons]; omega)

/-- The regex scan finds a match whenever a non-greedy pair with non-blank
inner text exists. -/
theorem scanValid_of_specValidPair : ∀ (cs : List Char), specValidPair cs → scanValid cs = true
  | [], ⟨t, pre, inner, post, hdec, _, _⟩ => by
    exfalso
    have hlen := congrArg List.length hdec
    simp only [List.length_nil, List.length_append] at hlen
    have := openTag_length_pos t
    omega
  | c :: cs', ⟨t, pre, inner, post, hdec, hnin, hw⟩ => by
    cases hm : matchAt (c :: cs') with
    | none =>
      rw [scanValid_cons_none hm]
      cases pre with
      | nil =>
        exfalso
        have hsome := matchAt_isSome (t := t) (by simpa using hdec)
        rw [hm] at hsome
        simp at hsome
      | cons p0 pre' =>
        apply scanValid_of_specValidPair cs'
        have hdec' : cs' = pre' ++ openTag t ++ inner ++ closeTag t ++ post := by
          simp only [List.cons_append] at hdec
          exact (List.cons.inj hdec).2
        exact ⟨t, pre', inner, post, hdec', hnin, hw⟩
    | some r =>
      obtain ⟨t1, inner1, after⟩ := r
      rw [scanValid_cons_some hm]
      by_cases hw1 : 0 < (jsTrim inner1).length
      · rw [if_pos hw1]
      · rw [if_neg hw1]
        have hmeq := matchAt_eq hm
        have hwall : ∀ ch ∈ inner1, isJsWhitespace ch := by
          have hnil : jsTrim inner1 = [] :=
            List.eq_nil_of_length_eq_zero (by omega)
          exact (jsTrim_eq_nil_iff inner1).mp hnil
        have hdecR : c :: cs' = pre ++ (openTag t ++ (inner ++ (closeTag t ++ post))) := by
          simpa only [List.append_assoc] using hdec
        have hmeqR : c :: cs' = openTag t1 ++ (inner1 ++ (closeTag t1 ++ after)) := by
          simpa only [List.append_assoc] using hmeq
        have hpre := hdecR.symm.trans hmeqR
        rcases List.append_eq_append_iff.mp hpre with ⟨y, hA1, hA2⟩ | ⟨w, hB1, hB2⟩
        · -- the claimed pair starts no later than the found opening tag
          cases y with
          | nil =>
            exfalso
            rw [List.nil_append] at hA2
            by_cases hinner1 : inner1 = []
            · subst hinner1
              rw [List.nil_append] at hA2
              exact close_append_ne_open_append t t1 after _ hA2.symm
            · exact ws_append_ne_open t _ _ hwall hinner1 hA2.symm
          | cons y0 y' =>
            cases pre with
            | nil =>
              rw [List.nil_append] at hA1
              rw [← hA1] at hA2
              have ht : t = t1 := openTag_start_inj ⟨_, rfl⟩ ⟨_, hA2⟩
              subst ht
              have hcancel := List.append_cancel_left hA2
              have huniq := first_occurrence_unique (closeTag_borderFree t) hnin
                (matchAt_minimal hm) hcancel
              rw [huniq] at hw
              exact absurd hw hw1
            | cons p0 pre' =>
              exfalso
              have hplen0 : 0 < (p0 :: pre').length := by simp
              have hlen1 := congrArg List.length hA1
              simp only [List.length_append, List.length_cons] at hlen1
              have hpltlen : (p0 :: pre').length < (openTag t1).length := by
                simp only [List.length_cons]
                omega
              have hyval : (openTag t1).drop (p0 :: pre').length = y0 :: y' := by
                rw [hA1, List.drop_left]
              exact openDrop_append_ne_open_append t t1 hplen0 hpltlen _ _
                (by rw [hyval]; exact hA2.symm)
        · -- the claimed pair starts after the found opening tag
          rcases List.append_eq_append_iff.mp hB2 with ⟨y2, hC1, hC2⟩ | ⟨w2, hF1, hF2⟩
          · rcases List.append_eq_append_iff.mp hC2 with ⟨y3, hD1, hD2⟩ | ⟨w3, hE1, hE2⟩
            · -- the pair lies wholly inside `after`: recurse past the match
              apply scanValid_of_specValidPair after
              exact ⟨t, y3, inner, post, by simpa only [List.append_assoc] using hD2, hnin, hw⟩
            · cases w3 with
              | nil =>
                rw [List.nil_append] at hE2
                apply scanValid_of_specValidPair after
                exact ⟨t, [], inner, post, by simpa using hE2.symm, hnin, hw⟩
              | cons w30 w3' =>
                exfalso
                cases y2 with
                | nil =>
                  rw [List.nil_append] at hE1
                  rw [← hE1] at hE2
                  exact close_append_ne_open_append t t1 after _ hE2.symm
                | cons y20 y2' =>
                  have hk0 : 0 < (y20 :: y2').length := by simp
                  have hlen2 := congrArg List.length hE1
                  simp only [List.length_append, List.length_cons] at hlen2
                  have hklt : (y20 :: y2').length < (closeTag t1).length := by
                    simp only [List.length_cons]
                    omega
                  have hwval : (closeTag t1).drop (y20 :: y2').length = w30 :: w3' := by
                    rw [hE1, List.drop_left]
                  exact closeDrop_append_ne_open_append t t1 hk0 hklt _ _
                    (by rw [hwval]; exact hE2.symm)
          · cases w2 with
            | nil =>
              exfalso
              rw [List.nil_append] at hF2
              exact close_append_ne_open_append t t1 after _ hF2.symm
            | cons w20 w2' =>
              exfalso
              have hws2 : ∀ ch ∈ (w20 :: w2'), isJsWhitespace ch := by
                intro ch hc
                exact hwall ch (by rw [hF1]; exact List.mem_append_right _ hc)
              exact ws_append_ne_open t _ _ hws2 (by simp) hF2.symm
termination_by cs => cs.length
decreasing_by
  all_goals first
    | exact matchAt_length hm
    | (simp only [List.length_cons]; omega)

theorem scanValid_iff_specValidPair (cs : List Char) :
    scanValid cs = true ↔ specValidPair cs :=
  ⟨specValidPair_of_scanValid cs, scanValid_of_specValidPair cs⟩

/-- Claim C3: for every input, the validity predicate returns `true` iff the
input is a string containing at least one open/close tag pair of the primary
tag name (正文) or the alternate tag name (game) whose inner text, after
trimming leading/trailing whitespace, is non-empty (pairs are formed by the
non-greedy matching the source uses, so a pair's inner text contains no
closing tag of its own name); unmatched or partial tags never contribute,
and non-string input returns `false`. -/
theorem C3_validity_iff_nonblank_pair (input : JsInput) :
    hasValidZhengwenTag input = true ↔
      ∃ s : String, input = JsInput.str s ∧ specValidPair s.data := by
  cases input with
  | str s =>
    simp only [hasValidZhengwenTag]
    rw [scanValid_iff_specValidPair]
    constructor
    · intro h
      exact ⟨s, rfl, h⟩
    · rintro ⟨s', hs, hsp⟩
      injection hs with h1
      rw [h1]
      exact hsp
  | nonString =>
    simp only [hasValidZhengwenTag]
    constructor
    · intro h; cases h
    · rintro ⟨s', hs, _⟩; cases hs

/-- Claim C10: for every string with no same-name pair with non-whitespace
inner content — in particular one in which an opening tag of one accepted
name is closed only by the closing tag of the other name, such as
`<正文>text</game>` — the validity predicate returns `false`: the regex
back-reference requires each pair's closing tag name to equal its opening
tag name, so cross-name pairings never count as valid. -/
theorem C10_cross_name_pairs_rejected (s : String)
    (h : ¬ specValidPair s.data) : hasValidZhengwenTag (JsInput.str s) = false := by
  simp only [hasValidZhengwenTag]
  cases hv : scanValid s.data with
  | false => rfl
  | true => exact absurd (specValidPair_of_scanValid _ hv) h

/-- Witness for C10 at the concrete cross-name input `<正文>text</game>`. -/
theorem C10_cross_name_pairs_rejected_witness :
    hasValidZhengwenTag (JsInput.str "<正文>text</game>") = false :=
  C10_cross_name_pairs_rejected "<正文>text</game>"
    (fun hsp => absurd (scanValid_of_specValidPair _ hsp) (by decide))

/-! ### Controller lemmas -/

theorem fireTimer_retryCount (raw : RawSettings) (now : Nat) (b : Bool) (s : CtrlState) :
    (fireTimer raw now b s).retryCount = s.retryCount := by
  unfold fireTimer
  cases s.pendingTimer with
  | none => rfl
  | some t =>
    dsimp only
    split_ifs <;> rfl

theorem fireTimer_throwing_fields (raw : RawSettings) (now : Nat) (s : CtrlState)
    (t : TimerInfo) (hp : s.pendingTimer = some t) (hd : s.disposed = false)
    (he : (readSettings raw).enabled = true)
    (hns : ((readSettings raw).stopOnManualRegen && s.suppressedByManualRegen) = false) :
    (fireTimer raw now true s).pendingTimer = none ∧
    (fireTimer raw now true s).log =
      s.log ++ [LogEntry.regenClick t.messageKey t.attempt, LogEntry.actionError] ∧
    (fireTimer raw now true s).regenInvocations = s.regenInvocations ++ [(t.scheduledAt, now)] := by
  unfold fireTimer
  rw [hp]
  simp [hd, he, hns]

theorem ctrlGenEnded_schedule_increments (raw : RawSettings) (now : Nat)
    (k txt : String) (s : CtrlState)
    (hd : s.disposed = false)
    (he : (readSettings raw).enabled = true)
    (hns : ((readSettings raw).stopOnManualRegen && s.suppressedByManualRegen) = false)
    (hk : ¬ (k = ""))
    (hlast : s.lastMessageKey = some k)
    (hval : scanValid txt.data = false)
    (hp0 : s.pendingTimer = none)
    (hlt : s.retryCount < (readSettings raw).maxRetries) :
    (ctrlGenEnded raw now k txt s).retryCount = s.retryCount + 1 ∧
    (ctrlGenEnded raw now k txt s).pendingTimer =
      some { fireAt := now + (readSettings raw).cooldownMs, scheduledAt := now,
             messageKey := k, attempt := s.retryCount + 1 } := by
  have hnle : ¬ ((readSettings raw).maxRetries ≤ s.retryCount) := Nat.not_le.mpr hlt
  unfold ctrlGenEnded
  simp [hd, he, hns, hk, hlast, hval, hp0, hnle, apply_ite]

/-- Claim C9: when the cooldown timer fires and the regenerate action
throws, the exception is caught at the call site (the callback body is a
total function on states), reported through the logger (`actionError` entry
after the `regenClick` entry), never propagated, and the retry budget is not
rolled back: firing never changes `retryCount` for any action outcome, and
the increment for the attempt already happened at scheduling time, where the
scheduled timer's attempt number equals the already-incremented count. -/
theorem C9_throwing_regenerate_consumes_slot
    (raw : RawSettings) (now : Nat) (s : CtrlState) (t : TimerInfo)
    (hp : s.pendingTimer = some t) (hd : s.disposed = false)
    (he : (readSettings raw).enabled = true)
    (hns : ((readSettings raw).stopOnManualRegen && s.suppressedByManualRegen) = false) :
    (∀ b : Bool, (fireTimer raw now b s).retryCount = s.retryCount) ∧
    (fireTimer raw now true s).log =
      s.log ++ [LogEntry.regenClick t.messageKey t.attempt, LogEntry.actionError] ∧
    (fireTimer raw now true s).regenInvocations = s.regenInvocations ++ [(t.scheduledAt, now)] ∧
    (fireTimer raw now true s).pendingTimer = none ∧
    (∀ k txt (s' : CtrlState),
      s'.disposed = false →
      ((readSettings raw).stopOnManualRegen && s'.suppressedByManualRegen) = false →
      ¬ (k = "") → s'.lastMessageKey = some k → scanValid txt.data = false →
      s'.pendingTimer = none → s'.retryCount < (readSettings raw).maxRetries →
      (ctrlGenEnded raw now k txt s').retryCount = s'.retryCount + 1 ∧
      ∀ ti, (ctrlGenEnded raw now k txt s').pendingTimer = some ti →
        ti.attempt = s'.retryCount + 1) := by
  obtain ⟨h1, h2, h3⟩ := fireTimer_throwing_fields raw now s t hp hd he hns
  refine ⟨fun b => fireTimer_retryCount raw now b s, h2, h3, h1, ?_⟩
  intro k txt s' hd' hns' hk' hlast' hval' hp0' hlt'
  obtain ⟨hrc, hpt⟩ := ctrlGenEnded_schedule_increments raw now k txt s' hd' he hns' hk'
    hlast' hval' hp0' hlt'
  refine ⟨hrc, fun ti hti => ?_⟩
  rw [hpt] at hti
  injection hti with hti'
  rw [← hti']

/-- Witness for C9 at a concrete state with a pending timer and a throwing
regenerate action. -/
theorem C9_throwing_regenerate_consumes_slot_witness :
    (fireTimer (⟨some true, some 2, some 1000, some false⟩ : RawSettings) 1000 true
      { pendingTimer := some ⟨1000, 0, "chat-a:1", 1⟩, retryCount := 1 }).retryCount = 1 ∧
    (fireTimer (⟨some true, some 2, some 1000, some false⟩ : RawSettings) 1000 true
      { pendingTimer := some ⟨1000, 0, "chat-a:1", 1⟩, retryCount := 1 }).log =
      [LogEntry.regenClick "chat-a:1" 1, LogEntry.actionError] := by
  have h := C9_throwing_regenerate_consumes_slot
    (⟨some true, some 2, some 1000, some false⟩ : RawSettings) 1000
    { pendingTimer := some ⟨1000, 0, "chat-a:1", 1⟩, retryCount := 1 }
    ⟨1000, 0, "chat-a:1", 1⟩ rfl rfl (by decide) (by decide)
  exact ⟨h.1 true, h.2.1⟩

theorem suppressed_genEnded_fields (raw : RawSettings) (now : Nat) (k txt : String)
    (s : CtrlState) (hsup : s.suppressedByManualRegen = true)
    (hstop : (readSettings raw).stopOnManualRegen = true)
    (hp0 : s.pendingTimer = none) :
    (ctrlGenEnded raw now k txt s).regenInvocations = s.regenInvocations ∧
    (ctrlGenEnded raw now k txt s).suppressedByManualRegen = true ∧
    (ctrlGenEnded raw now k txt s).pendingTimer = none := by
  by_cases hd : s.disposed <;> by_cases he : (readSettings raw).enabled <;>
    (unfold ctrlGenEnded; simp [hd, he, hsup, hstop, hp0, cancelPending])

theorem suppressed_run (raw : RawSettings) (th : Bool) :
    ∀ es : List CtrlEvent,
      (readSettings raw).stopOnManualRegen = true →
      (∀ e ∈ es, (∃ k txt, e = CtrlEvent.genEnded k txt) ∨ ∃ ms, e = CtrlEvent.advance ms) →
      ∀ sys : CtrlSys, sys.st.suppressedByManualRegen = true → sys.st.pendingTimer = none →
        (ctrlRun raw th es sys).st.regenInvocations = sys.st.regenInvocations ∧
        (ctrlRun raw th es sys).st.suppressedByManualRegen = true ∧
        (ctrlRun raw th es sys).st.pendingTimer = none := by
  intro es
  induction es with
  | nil =>
    intro _ _ sys h1 h2
    exact ⟨rfl, h1, h2⟩
  | cons e es ih =>
    intro hstop hall sys h1 h2
    have hstep : (ctrlStep raw th sys e).st.regenInvocations = sys.st.regenInvocations ∧
        (ctrlStep raw th sys e).st.suppressedByManualRegen = true ∧
        (ctrlStep raw th sys e).st.pendingTimer = none := by
      rcases hall e (List.mem_cons_self _ _) with ⟨k, txt, rfl⟩ | ⟨ms, rfl⟩
      · simpa only [ctrlStep] using suppressed_genEnded_fields raw sys.now k txt sys.st h1 hstop h2
      · simp [ctrlStep, h1, h2]
    have htail := ih hstop (fun e' he' => hall e' (List.mem_cons_of_mem _ he'))
      (ctrlStep raw th sys e) hstep.2.1 hstep.2.2
    have hrun : ctrlRun raw th (e :: es) sys = ctrlRun raw th es (ctrlStep raw th sys e) := rfl
    rw [hrun]
    exact ⟨htail.1.trans hstep.1, htail.2.1, htail.2.2⟩

/-- Claim C4: with `stopOnManualRegen = true`, a manual-override
notification sets the suppression flag, resets `retryCount` to 0, cancels
any pending timer (and logs the detection); from any suppressed state with
no pending timer, no sequence of GenerationEnded and clock-advance events —
i.e. until a UserMessageSent or ChatChanged arrives — ever invokes the
regenerate action; and with `stopOnManualRegen = false` the notification
has no effect at all. -/
theorem C4_manual_override_suppression (raw : RawSettings) (s : CtrlState)
    (th : Bool) (es : List CtrlEvent) (sys : CtrlSys) :
    ((readSettings raw).stopOnManualRegen = true →
      (ctrlManualRegenerate raw s).suppressedByManualRegen = true ∧
      (ctrlManualRegenerate raw s).retryCount = 0 ∧
      (ctrlManualRegenerate raw s).pendingTimer = none ∧
      (ctrlManualRegenerate raw s).log = s.log ++ [LogEntry.manualRegenDetected]) ∧
    ((readSettings raw).stopOnManualRegen = false → ctrlManualRegenerate raw s = s) ∧
    ((readSettings raw).stopOnManualRegen = true →
      (∀ e ∈ es, (∃ k txt, e = CtrlEvent.genEnded k txt) ∨ ∃ ms, e = CtrlEvent.advance ms) →
      sys.st.suppressedByManualRegen = true → sys.st.pendingTimer = none →
      (ctrlRun raw th es sys).st.regenInvocations = sys.st.regenInvocations) := by
  refine ⟨?_, ?_, ?_⟩
  · intro hstop
    unfold ctrlManualRegenerate
    simp [hstop, cancelPending]
  · intro hstop
    unfold ctrlManualRegenerate
    simp [hstop]
  · intro hstop hall h1 h2
    exact (suppressed_run raw th es hstop hall sys h1 h2).1

/-- Witness for C4: concrete suppressed run with persistently invalid
generation results produces no regenerate invocation, and a disabled
`stopOnManualRegen` makes the notification a no-op. -/
theorem C4_manual_override_suppression_witness :
    (ctrlManualRegenerate (⟨some true, some 5, some 0, some true⟩ : RawSettings)
      {}).suppressedByManualRegen = true ∧
    (ctrlManualRegenerate (⟨some true, some 5, some 0, some false⟩ : RawSettings)
      { retryCount := 3 }) = { retryCount := 3 } ∧
    (ctrlRun (⟨some true, some 5, some 0, some true⟩ : RawSettings) false
      [CtrlEvent.genEnded "chat-a:1" "invalid", CtrlEvent.advance 0,
       CtrlEvent.genEnded "chat-a:1" "invalid", CtrlEvent.advance 0]
      ⟨0, { suppressedByManualRegen := true }⟩).st.regenInvocations = [] := by
  refine ⟨?_, ?_, ?_⟩
  · exact ((C4_manual_override_suppression (⟨some true, some 5, some 0, some true⟩ :
      RawSettings) {} false [] {}).1 (by decide)).1
  · exact (C4_manual_override_suppression (⟨some true, some 5, some 0, some false⟩ :
      RawSettings) { retryCount := 3 } false [] {}).2.1 (by decide)
  · exact (C4_manual_override_suppression (⟨some true, some 5, some 0, some true⟩ :
      RawSettings) {} false
      [CtrlEvent.genEnded "chat-a:1" "invalid", CtrlEvent.advance 0,
       CtrlEvent.genEnded "chat-a:1" "invalid", CtrlEvent.advance 0]
      ⟨0, { suppressedByManualRegen := true }⟩).2.2 (by decide)
      (by
        intro e he
        simp only [List.mem_cons, List.not_mem_nil, or_false] at he
        rcases he with rfl | rfl | rfl | rfl
        · exact Or.inl ⟨_, _, rfl⟩
        · exact Or.inr ⟨_, rfl⟩
        · exact Or.inl ⟨_, _, rfl⟩
        · exact Or.inr ⟨_, rfl⟩)
      rfl rfl

/-! ### Retry budget lemmas (claim C1) -/


theorem ctrlGenEnded_fresh_schedule_proj (raw : RawSettings) (now : Nat) (k txt : String)
    (s : CtrlState) (hd : s.disposed = false)
    (he : (readSettings raw).enabled = true)
    (hsup : ((readSettings raw).stopOnManualRegen && s.suppressedByManualRegen) = false)
    (hk : ¬ (k = "")) (hne : s.lastMessageKey ≠ some k)
    (hval : scanValid txt.data = false)
    (hlt : 0 < (readSettings raw).maxRetries) :
    (ctrlGenEnded raw now k txt s).retryCount = 1 ∧
    (ctrlGenEnded raw now k txt s).pendingTimer =
      some ⟨now + (readSettings raw).cooldownMs, now, k, 1⟩ ∧
    (ctrlGenEnded raw now k txt s).regenInvocations = s.regenInvocations ∧
    (ctrlGenEnded raw now k txt s).disposed = s.disposed ∧
    (ctrlGenEnded raw now k txt s).suppressedByManualRegen = s.suppressedByManualRegen ∧
    (ctrlGenEnded raw now k txt s).isGenerating = false ∧
    (ctrlGenEnded raw now k txt s).lastMessageKey = some k := by
  have hnle : ¬ ((readSettings raw).maxRetries ≤ 0) := by omega
  unfold ctrlGenEnded
  by_cases hca : s.loggedCheckMessageKey = some k <;>
  by_cases hcb : s.loggedCheckValid = some false <;>
    simp [hd, he, hsup, hk, hne, hval, hnle, hca, hcb, cancelPending]


theorem ctrlGenEnded_fresh_max_proj (raw : RawSettings) (now : Nat) (k txt : String)
    (s : CtrlState) (hd : s.disposed = false)
    (he : (readSettings raw).enabled = true)
    (hsup : ((readSettings raw).stopOnManualRegen && s.suppressedByManualRegen) = false)
    (hk : ¬ (k = "")) (hne : s.lastMessageKey ≠ some k)
    (hval : scanValid txt.data = false)
    (hge : (readSettings raw).maxRetries = 0) :
    (ctrlGenEnded raw now k txt s).retryCount = 0 ∧
    (ctrlGenEnded raw now k txt s).pendingTimer = none ∧
    (ctrlGenEnded raw now k txt s).regenInvocations = s.regenInvocations ∧
    (ctrlGenEnded raw now k txt s).disposed = s.disposed ∧
    (ctrlGenEnded raw now k txt s).suppressedByManualRegen = s.suppressedByManualRegen ∧
    (ctrlGenEnded raw now k txt s).isGenerating = false ∧
    (ctrlGenEnded raw now k txt s).lastMessageKey = some k := by
  unfold ctrlGenEnded
  by_cases hca : s.loggedCheckMessageKey = some k <;>
  by_cases hcb : s.loggedCheckValid = some false <;>
    simp [hd, he, hsup, hk, hne, hval, hge, hca, hcb, cancelPending]


theorem ctrlGenEnded_schedule_proj (raw : RawSettings) (now : Nat) (k txt : String)
    (s : CtrlState) (hd : s.disposed = false)
    (he : (readSettings raw).enabled = true)
    (hsup : ((readSettings raw).stopOnManualRegen && s.suppressedByManualRegen) = false)
    (hk : ¬ (k = "")) (hlast : s.lastMessageKey = some k)
    (hval : scanValid txt.data = false) (hp0 : s.pendingTimer = none)
    (hlt : s.retryCount < (readSettings raw).maxRetries) :
    (ctrlGenEnded raw now k txt s).retryCount = s.retryCount + 1 ∧
    (ctrlGenEnded raw now k txt s).pendingTimer =
      some ⟨now + (readSettings raw).cooldownMs, now, k, s.retryCount + 1⟩ ∧
    (ctrlGenEnded raw now k txt s).regenInvocations = s.regenInvocations ∧
    (ctrlGenEnded raw now k txt s).disposed = s.disposed ∧
    (ctrlGenEnded raw now k txt s).suppressedByManualRegen = s.suppressedByManualRegen ∧
    (ctrlGenEnded raw now k txt s).isGenerating = false ∧
    (ctrlGenEnded raw now k txt s).lastMessageKey = some k := by
  have hnle : ¬ ((readSettings raw).maxRetries ≤ s.retryCount) := Nat.not_le.mpr hlt
  unfold ctrlGenEnded
  by_cases hca : s.loggedCheckMessageKey = some k <;>
  by_cases hcb : s.loggedCheckValid = some false <;>
    simp [hd, he, hsup, hk, hlast, hval, hp0, hnle, hca, hcb]

theorem ctrlGenEnded_max_proj (raw : RawSettings) (now : Nat) (k txt : String)
    (s : CtrlState) (hd : s.disposed = false)
    (he : (readSettings raw).enabled = true)
    (hsup : ((readSettings raw).stopOnManualRegen && s.suppressedByManualRegen) = false)
    (hk : ¬ (k = "")) (hlast : s.lastMessageKey = some k)
    (hval : scanValid txt.data = false) (hp0 : s.pendingTimer = none)
    (hge : (readSettings raw).maxRetries ≤ s.retryCount) :
    (ctrlGenEnded raw now k txt s).retryCount = s.retryCount ∧
    (ctrlGenEnded raw now k txt s).pendingTimer = none ∧
    (ctrlGenEnded raw now k txt s).regenInvocations = s.regenInvocations ∧
    (ctrlGenEnded raw now k txt s).disposed = s.disposed ∧
    (ctrlGenEnded raw now k txt s).suppressedByManualRegen = s.suppressedByManualRegen ∧
    (ctrlGenEnded raw now k txt s).isGenerating = false ∧
    (ctrlGenEnded raw now k txt s).lastMessageKey = some k := by
  unfold ctrlGenEnded
  by_cases hca : s.loggedCheckMessageKey = some k <;>
  by_cases hcb : s.loggedCheckValid = some false <;>
  by_cases hcc : s.loggedMaxRetriesMessageKey = some k <;>
    simp [hd, he, hsup, hk, hlast, hval, hp0, hge, hca, hcb, hcc]


theorem ctrlGenEnded_pendingSome_proj (raw : RawSettings) (now : Nat) (k txt : String)
    (s : CtrlState) (hd : s.disposed = false)
    (he : (readSettings raw).enabled = true)
    (hsup : ((readSettings raw).stopOnManualRegen && s.suppressedByManualRegen) = false)
    (hk : ¬ (k = "")) (hlast : s.lastMessageKey = some k)
    (hval : scanValid txt.data = false) (t : TimerInfo)
    (hp : s.pendingTimer = some t) :
    (ctrlGenEnded raw now k txt s).retryCount = s.retryCount ∧
    (ctrlGenEnded raw now k txt s).pendingTimer = some t ∧
    (ctrlGenEnded raw now k txt s).regenInvocations = s.regenInvocations ∧
    (ctrlGenEnded raw now k txt s).disposed = s.disposed ∧
    (ctrlGenEnded raw now k txt s).suppressedByManualRegen = s.suppressedByManualRegen ∧
    (ctrlGenEnded raw now k txt s).isGenerating = false ∧
    (ctrlGenEnded raw now k txt s).lastMessageKey = some k := by
  unfold ctrlGenEnded
  by_cases hca : s.loggedCheckMessageKey = some k <;>
  by_cases hcb : s.loggedCheckValid = some false <;>
    simp [hd, he, hsup, hk, hlast, hval, hp, hca, hcb]

theorem fireTimer_cases (raw : RawSettings) (now : Nat) (b : Bool) (s : CtrlState)
    (t : TimerInfo) (hp : s.pendingTimer = some t) :
    (fireTimer raw now b s).pendingTimer = none ∧
    (fireTimer raw now b s).retryCount = s.retryCount ∧
    (fireTimer raw now b s).disposed = s.disposed ∧
    (fireTimer raw now b s).suppressedByManualRegen = s.suppressedByManualRegen ∧
    (fireTimer raw now b s).lastMessageKey = s.lastMessageKey ∧
    (fireTimer raw now b s).isGenerating = s.isGenerating ∧
    ((fireTimer raw now b s).regenInvocations = s.regenInvocations ∨
      (fireTimer raw now b s).regenInvocations = s.regenInvocations ++ [(t.scheduledAt, now)]) := by
  unfold fireTimer
  rw [hp]
  by_cases hd : s.disposed <;> by_cases he : (readSettings raw).enabled <;>
    by_cases hs2 : ((readSettings raw).stopOnManualRegen && s.suppressedByManualRegen) = true <;>
    by_cases hb : b = true <;>
    simp [hd, he, hs2, hb]

theorem fireTimer_invoke_proj (raw : RawSettings) (now : Nat) (b : Bool) (s : CtrlState)
    (t : TimerInfo) (hp : s.pendingTimer = some t) (hd : s.disposed = false)
    (he : (readSettings raw).enabled = true)
    (hsup : ((readSettings raw).stopOnManualRegen && s.suppressedByManualRegen) = false) :
    (fireTimer raw now b s).regenInvocations = s.regenInvocations ++ [(t.scheduledAt, now)] ∧
    (fireTimer raw now b s).pendingTimer = none ∧
    (fireTimer raw now b s).retryCount = s.retryCount ∧
    (fireTimer raw now b s).disposed = s.disposed ∧
    (fireTimer raw now b s).suppressedByManualRegen = s.suppressedByManualRegen ∧
    (fireTimer raw now b s).isGenerating = s.isGenerating ∧
    (fireTimer raw now b s).lastMessageKey = s.lastMessageKey := by
  unfold fireTimer
  rw [hp]
  by_cases hb : b = true <;> simp [hd, he, hsup, hb]

theorem retryInv_genEnded (raw : RawSettings) (th : Bool) {N C : Nat} {key : String}
    (hN : (readSettings raw).maxRetries = N) (hC : (readSettings raw).cooldownMs = C)
    (he : (readSettings raw).enabled = true) (hk : ¬ (key = ""))
    (txt : String) (hval : scanValid txt.data = false)
    (sys : CtrlSys) (hinv : retryInv N C key sys) :
    retryInv N C key (ctrlStep raw th sys (CtrlEvent.genEnded key txt)) := by
  obtain ⟨now, s⟩ := sys
  obtain ⟨hd, hrc, hcount, hsep, htimer, hnone, hlastd⟩ := hinv
  dsimp only at hd hrc hcount hsep htimer hnone hlastd
  simp only [ctrlStep]
  unfold retryInv
  dsimp only
  by_cases hsup : ((readSettings raw).stopOnManualRegen && s.suppressedByManualRegen) = true
  · have heq : ctrlGenEnded raw now key txt s = { s with isGenerating := false } := by
      unfold ctrlGenEnded
      simp [hd, he, hsup]
    rw [heq]
    exact ⟨hd, hrc, hcount, hsep, htimer, hnone, hlastd⟩
  · have hsup' : ((readSettings raw).stopOnManualRegen && s.suppressedByManualRegen) = false := by
      simpa using hsup
    rcases hlastd with hlk | hlk
    · -- first contact with the slot: it is adopted, with a zeroed budget
      obtain ⟨hrc0, hinv0, hp00⟩ := hnone hlk
      have hne : s.lastMessageKey ≠ some key := by rw [hlk]; simp
      by_cases hlt : 0 < (readSettings raw).maxRetries
      · obtain ⟨p1, p2, p3, p4, p5, p6, p7⟩ :=
          ctrlGenEnded_fresh_schedule_proj raw now key txt s hd he hsup' hk hne hval hlt
        refine ⟨by rw [p4]; exact hd, ?_, ?_, ?_, ?_, ?_, Or.inr p7⟩
        · rw [p1, ← hN]
          omega
        · rw [p3, p2, p1, hinv0]
          simp
        · intro p hp
          rw [p3, hinv0] at hp
          simp at hp
        · intro ti hti
          rw [p2] at hti
          injection hti with hti'
          rw [← hti', hC]
        · intro hcontra
          rw [p7] at hcontra
          cases hcontra
      · have hge : (readSettings raw).maxRetries = 0 := by omega
        obtain ⟨q1, q2, q3, q4, q5, q6, q7⟩ :=
          ctrlGenEnded_fresh_max_proj raw now key txt s hd he hsup' hk hne hval hge
        refine ⟨by rw [q4]; exact hd, ?_, ?_, ?_, ?_, ?_, Or.inr q7⟩
        · rw [q1]
          exact Nat.zero_le _
        · rw [q3, q2, q1, hinv0]
          simp
        · intro p hp
          rw [q3, hinv0] at hp
          simp at hp
        · intro ti hti
          rw [q2] at hti
          cases hti
        · intro hcontra
          rw [q7] at hcontra
          cases hcontra
    · -- the slot is already adopted
      cases hp : s.pendingTimer with
      | some t =>
        obtain ⟨r1, r2, r3, r4, r5, r6, r7⟩ :=
          ctrlGenEnded_pendingSome_proj raw now key txt s hd he hsup' hk hlk hval t hp
        refine ⟨by rw [r4]; exact hd, by rw [r1]; exact hrc, ?_, ?_, ?_, ?_, Or.inr r7⟩
        · rw [r3, r2, r1]
          rw [hp] at hcount
          simpa using hcount
        · intro p hpm
          rw [r3] at hpm
          exact hsep p hpm
        · intro ti hti
          rw [r2] at hti
          injection hti with hti'
          exact htimer ti (by rw [hp, hti'])
        · intro hcontra
          rw [r7] at hcontra
          cases hcontra
      | none =>
        by_cases hlt : s.retryCount < (readSettings raw).maxRetries
        · obtain ⟨p1, p2, p3, p4, p5, p6, p7⟩ :=
            ctrlGenEnded_schedule_proj raw now key txt s hd he hsup' hk hlk hval hp hlt
          refine ⟨by rw [p4]; exact hd, ?_, ?_, ?_, ?_, ?_, Or.inr p7⟩
          · rw [p1, ← hN]
            omega
          · rw [p3, p2, p1]
            rw [hp] at hcount
            simp only [Option.isSome_none] at hcount
            simp
            omega
          · intro p hpm
            rw [p3] at hpm
            exact hsep p hpm
          · intro ti hti
            rw [p2] at hti
            injection hti with hti'
            rw [← hti', hC]
          · intro hcontra
            rw [p7] at hcontra
            cases hcontra
        · obtain ⟨q1, q2, q3, q4, q5, q6, q7⟩ :=
            ctrlGenEnded_max_proj raw now key txt s hd he hsup' hk hlk hval hp
              (Nat.not_lt.mp hlt)
          refine ⟨by rw [q4]; exact hd, by rw [q1]; exact hrc, ?_, ?_, ?_, ?_, Or.inr q7⟩
          · rw [q3, q2, q1]
            rw [hp] at hcount
            simpa using hcount
          · intro p hpm
            rw [q3] at hpm
            exact hsep p hpm
          · intro ti hti
            rw [q2] at hti
            cases hti
          · intro hcontra
            rw [q7] at hcontra
            cases hcontra

theorem retryInv_advance (raw : RawSettings) (th : Bool) {N C : Nat} {key : String}
    (ms : Nat) (sys : CtrlSys) (hinv : retryInv N C key sys) :
    retryInv N C key (ctrlStep raw th sys (CtrlEvent.advance ms)) := by
  obtain ⟨now, s⟩ := sys
  obtain ⟨hd, hrc, hcount, hsep, htimer, hnone, hlastd⟩ := hinv
  dsimp only at hd hrc hcount hsep htimer hnone hlastd
  simp only [ctrlStep]
  cases hp : s.pendingTimer with
  | none =>
    unfold retryInv
    dsimp only
    exact ⟨hd, hrc, hcount, hsep, htimer, hnone, hlastd⟩
  | some t =>
    dsimp only
    by_cases hf : t.fireAt ≤ now + ms
    · rw [if_pos hf]
      unfold retryInv
      dsimp only
      obtain ⟨f1, f2, f3, f4, f5, f6, f7⟩ := fireTimer_cases raw (now + ms) th s t hp
      refine ⟨by rw [f3]; exact hd, by rw [f2]; exact hrc, ?_, ?_, ?_, ?_, ?_⟩
      · rw [hp] at hcount
        simp only [Option.isSome_some, if_pos] at hcount
        rcases f7 with hri | hri <;> rw [hri, f1, f2] <;> simp <;> omega
      · intro p hpm
        rcases f7 with hri | hri <;> rw [hri] at hpm
        · exact hsep p hpm
        · rcases List.mem_append.mp hpm with hold | hnew
          · exact hsep p hold
          · have hfa := htimer t hp
            simp only [List.mem_singleton] at hnew
            rw [hnew]
            dsimp only
            omega
      · intro ti hti
        rw [f1] at hti
        cases hti
      · intro hlkn
        rw [f5] at hlkn
        obtain ⟨-, -, hpn⟩ := hnone hlkn
        rw [hpn] at hp
        cases hp
      · rcases hlastd with h | h
        · left; rw [f5]; exact h
        · right; rw [f5]; exact h
    · rw [if_neg hf]
      unfold retryInv
      dsimp only
      exact ⟨hd, hrc, hcount, hsep, htimer, hnone, hlastd⟩

theorem retryInv_init (N C : Nat) (key : String) : retryInv N C key {} := by
  refine ⟨rfl, Nat.zero_le _, by simp, by simp, by simp, fun _ => ⟨rfl, rfl, rfl⟩, Or.inl rfl⟩

theorem retryInv_run (raw : RawSettings) (th : Bool) {N C : Nat} {key : String}
    (hN : (readSettings raw).maxRetries = N) (hC : (readSettings raw).cooldownMs = C)
    (he : (readSettings raw).enabled = true) (hk : ¬ (key = "")) :
    ∀ es : List CtrlEvent,
      (∀ e ∈ es, (∃ txt, e = CtrlEvent.genEnded key txt ∧ scanValid txt.data = false) ∨
        ∃ ms, e = CtrlEvent.advance ms) →
      ∀ sys : CtrlSys, retryInv N C key sys → retryInv N C key (ctrlRun raw th es sys) := by
  intro es
  induction es with
  | nil => intro _ sys h; exact h
  | cons e es ih =>
    intro hall sys h
    have hstep : retryInv N C key (ctrlStep raw th sys e) := by
      rcases hall e (List.mem_cons_self _ _) with ⟨txt, rfl, hv⟩ | ⟨ms, rfl⟩
      · exact retryInv_genEnded raw th hN hC he hk txt hv sys h
      · exact retryInv_advance raw th ms sys h
    exact ih (fun e' he' => hall e' (List.mem_cons_of_mem _ he')) _ hstep

theorem retry_cycles_state (raw : RawSettings) (th : Bool) {N C : Nat} (key : String)
    (texts : Nat → String)
    (hN : (readSettings raw).maxRetries = N) (hC : (readSettings raw).cooldownMs = C)
    (he : (readSettings raw).enabled = true) (hk : ¬ (key = ""))
    (hval : ∀ i, scanValid (texts i).data = false) :
    ∀ k : Nat,
      (ctrlRun raw th (retryCycleEvents key texts C k) {}).now = k * C ∧
      (ctrlRun raw th (retryCycleEvents key texts C k) {}).st.retryCount = min k N ∧
      (ctrlRun raw th (retryCycleEvents key texts C k) {}).st.regenInvocations.length = min k N ∧
      (ctrlRun raw th (retryCycleEvents key texts C k) {}).st.pendingTimer = none ∧
      (ctrlRun raw th (retryCycleEvents key texts C k) {}).st.disposed = false ∧
      (ctrlRun raw th (retryCycleEvents key texts C k) {}).st.suppressedByManualRegen = false ∧
      (ctrlRun raw th (retryCycleEvents key texts C k) {}).st.lastMessageKey =
        (if k = 0 then none else some key) := by
  intro k
  induction k with
  | zero =>
    exact ⟨by simp [retryCycleEvents, ctrlRun], by simp [retryCycleEvents, ctrlRun],
      by simp [retryCycleEvents, ctrlRun], rfl, rfl, rfl, by simp [retryCycleEvents, ctrlRun]⟩
  | succ k ih =>
    obtain ⟨hnow, hrc, hlen, hpend, hdisp, hsupf, hlk⟩ := ih
    have hsplit : ctrlRun raw th (retryCycleEvents key texts C (k + 1)) {} =
        ctrlStep raw th
          (ctrlStep raw th (ctrlRun raw th (retryCycleEvents key texts C k) {})
            (CtrlEvent.genEnded key (texts k)))
          (CtrlEvent.advance C) := by
      show List.foldl (ctrlStep raw th) {}
          (retryCycleEvents key texts C k ++
            [CtrlEvent.genEnded key (texts k), CtrlEvent.advance C]) = _
      rw [List.foldl_append]
      rfl
    rw [hsplit]
    set sysk := ctrlRun raw th (retryCycleEvents key texts C k) {} with hsysk
    have hsup' : ((readSettings raw).stopOnManualRegen && sysk.st.suppressedByManualRegen)
        = false := by
      rw [hsupf]
      simp
    by_cases hk0 : k = 0
    · subst hk0
      have hlk0 : sysk.st.lastMessageKey = none := by simpa using hlk
      have hne : sysk.st.lastMessageKey ≠ some key := by
        rw [hlk0]
        simp
      by_cases hNpos : 0 < (readSettings raw).maxRetries
      · obtain ⟨p1, p2, p3, p4, p5, p6, p7⟩ :=
          ctrlGenEnded_fresh_schedule_proj raw sysk.now key (texts 0) sysk.st hdisp he hsup'
            hk hne (hval 0) hNpos
        have hfinal : ctrlStep raw th (ctrlStep raw th sysk (CtrlEvent.genEnded key (texts 0)))
            (CtrlEvent.advance C) =
            ⟨sysk.now + C, fireTimer raw (sysk.now + C) th
              (ctrlGenEnded raw sysk.now key (texts 0) sysk.st)⟩ := by
          simp only [ctrlStep]
          rw [p2]
          dsimp only
          rw [if_pos (by simp [hC])]
        obtain ⟨f1, f2, f3, f4, f5, f6, f7⟩ :=
          fireTimer_invoke_proj raw (sysk.now + C) th
            (ctrlGenEnded raw sysk.now key (texts 0) sysk.st)
            ⟨sysk.now + (readSettings raw).cooldownMs, sysk.now, key, 1⟩ p2
            (by rw [p4, hdisp]) he (by rw [p5]; exact hsup')
        have hN0 : 0 < N := by rw [← hN]; exact hNpos
        rw [hfinal]
        refine ⟨?_, ?_, ?_, ?_, ?_, ?_, ?_⟩
        · dsimp only
          rw [hnow]
          ring
        · dsimp only
          rw [f3, p1]
          omega
        · dsimp only
          rw [f1, List.length_append, p3]
          have hlen0 : sysk.st.regenInvocations.length = 0 := by simpa using hlen
          rw [hlen0]
          simp
          omega
        · dsimp only
          exact f2
        · dsimp only
          rw [f4, p4]
          exact hdisp
        · dsimp only
          rw [f5, p5]
          exact hsupf
        · dsimp only
          rw [f7, p7]
          simp
      · have hge : (readSettings raw).maxRetries = 0 := by omega
        have hN0 : N = 0 := by rw [← hN]; exact hge
        obtain ⟨q1, q2, q3, q4, q5, q6, q7⟩ :=
          ctrlGenEnded_fresh_max_proj raw sysk.now key (texts 0) sysk.st hdisp he hsup'
            hk hne (hval 0) hge
        have hfinal : ctrlStep raw th (ctrlStep raw th sysk (CtrlEvent.genEnded key (texts 0)))
            (CtrlEvent.advance C) =
            ⟨sysk.now + C, ctrlGenEnded raw sysk.now key (texts 0) sysk.st⟩ := by
          simp only [ctrlStep]
          rw [q2]
        rw [hfinal]
        refine ⟨?_, ?_, ?_, ?_, ?_, ?_, ?_⟩
        · dsimp only
          rw [hnow]
          ring
        · dsimp only
          rw [q1]
          omega
        · dsimp only
          rw [q3]
          have hlen0 : sysk.st.regenInvocations.length = 0 := by simpa using hlen
          rw [hlen0]
          omega
        · dsimp only
          exact q2
        · dsimp only
          rw [q4]
          exact hdisp
        · dsimp only
          rw [q5]
          exact hsupf
        · dsimp only
          rw [q7]
          simp
    · have hlk' : sysk.st.lastMessageKey = some key := by
        rw [hlk, if_neg hk0]
      by_cases hlt : sysk.st.retryCount < (readSettings raw).maxRetries
      · have hkN : k < N := by
          rw [hrc, hN] at hlt
          omega
        obtain ⟨p1, p2, p3, p4, p5, p6, p7⟩ :=
          ctrlGenEnded_schedule_proj raw sysk.now key (texts k) sysk.st hdisp he hsup'
            hk hlk' (hval k) hpend hlt
        have hfinal : ctrlStep raw th (ctrlStep raw th sysk (CtrlEvent.genEnded key (texts k)))
            (CtrlEvent.advance C) =
            ⟨sysk.now + C, fireTimer raw (sysk.now + C) th
              (ctrlGenEnded raw sysk.now key (texts k) sysk.st)⟩ := by
          simp only [ctrlStep]
          rw [p2]
          dsimp only
          rw [if_pos (by simp [hC])]
        obtain ⟨f1, f2, f3, f4, f5, f6, f7⟩ :=
          fireTimer_invoke_proj raw (sysk.now + C) th
            (ctrlGenEnded raw sysk.now key (texts k) sysk.st)
            ⟨sysk.now + (readSettings raw).cooldownMs, sysk.now, key,
              sysk.st.retryCount + 1⟩ p2
            (by rw [p4, hdisp]) he (by rw [p5]; exact hsup')
        rw [hfinal]
        refine ⟨?_, ?_, ?_, ?_, ?_, ?_, ?_⟩
        · dsimp only
          rw [hnow]
          ring
        · dsimp only
          rw [f3, p1, hrc]
          omega
        · dsimp only
          rw [f1, List.length_append, p3, hlen]
          simp
          omega
        · dsimp only
          exact f2
        · dsimp only
          rw [f4, p4]
          exact hdisp
        · dsimp only
          rw [f5, p5]
          exact hsupf
        · dsimp only
          rw [f7, p7]
          simp
      · have hkN : N ≤ k := by
          rw [hrc, hN] at hlt
          omega
        obtain ⟨q1, q2, q3, q4, q5, q6, q7⟩ :=
          ctrlGenEnded_max_proj raw sysk.now key (texts k) sysk.st hdisp he hsup'
            hk hlk' (hval k) hpend (Nat.not_lt.mp hlt)
        have hfinal : ctrlStep raw th (ctrlStep raw th sysk (CtrlEvent.genEnded key (texts k)))
            (CtrlEvent.advance C) =
            ⟨sysk.now + C, ctrlGenEnded raw sysk.now key (texts k) sysk.st⟩ := by
          simp only [ctrlStep]
          rw [q2]
        rw [hfinal]
        refine ⟨?_, ?_, ?_, ?_, ?_, ?_, ?_⟩
        · dsimp only
          rw [hnow]
          ring
        · dsimp only
          rw [q1, hrc]
          omega
        · dsimp only
          rw [q3, hlen]
          omega
        · dsimp only
          exact q2
        · dsimp only
          rw [q4]
          exact hdisp
        · dsimp only
          rw [q5]
          exact hsupf
        · dsimp only
          rw [q7]
          simp

/-- Claim C1: with the feature enabled, `maxRetries = N` and
`cooldownMs = C`, over every sequence of GenerationEnded notifications for
one fixed slot whose text is never valid, interleaved with clock advances,
the regenerate action is invoked at most `N` times and every invocation
happens at least `C` after the evaluation that scheduled it; moreover along
the canonical trace of `k` invalid rounds each followed by a full cooldown
the number of invocations is exactly `min k N` — one per round up to the
`N`-th, and none ever after. -/
theorem C1_retry_budget (raw : RawSettings) (th : Bool) (N C : Nat) (key : String)
    (texts : Nat → String) (es : List CtrlEvent)
    (hN : (readSettings raw).maxRetries = N) (hC : (readSettings raw).cooldownMs = C)
    (he : (readSettings raw).enabled = true) (hk : ¬ (key = "")) :
    ((∀ e ∈ es, (∃ txt, e = CtrlEvent.genEnded key txt ∧ scanValid txt.data = false) ∨
        ∃ ms, e = CtrlEvent.advance ms) →
      (ctrlRun raw th es {}).st.regenInvocations.length ≤ N ∧
      ∀ p ∈ (ctrlRun raw th es {}).st.regenInvocations, p.1 + C ≤ p.2) ∧
    ((∀ i, scanValid (texts i).data = false) →
      ∀ k, (ctrlRun raw th (retryCycleEvents key texts C k) {}).st.regenInvocations.length
        = min k N) := by
  constructor
  · intro hall
    have hinv := retryInv_run raw th hN hC he hk es hall {} (retryInv_init N C key)
    obtain ⟨_, hrc, hcount, hsep, _, _, _⟩ := hinv
    exact ⟨le_trans (le_trans (Nat.le_add_right _ _) hcount) hrc, hsep⟩
  · intro hv k
    exact (retry_cycles_state raw th key texts hN hC he hk hv k).2.2.1

/-- Witness for C1 with `maxRetries = 2` and `cooldownMs = 1000`: the
concrete scenario trace from the specification stays within the budget and
three canonical rounds produce exactly two invocations. -/
theorem C1_retry_budget_witness :
    ((ctrlRun (⟨some true, some 2, some 1000, some false⟩ : RawSettings) false
        [CtrlEvent.genEnded "chat-a:1" "no tag", CtrlEvent.advance 999, CtrlEvent.advance 1,
         CtrlEvent.genEnded "chat-a:1" "still invalid", CtrlEvent.advance 1000,
         CtrlEvent.genEnded "chat-a:1" "still invalid again", CtrlEvent.advance 1000]
        {}).st.regenInvocations.length ≤ 2) ∧
    (ctrlRun (⟨some true, some 2, some 1000, some false⟩ : RawSettings) false
      (retryCycleEvents "chat-a:1" (fun _ => "no tag") 1000 3) {}).st.regenInvocations.length
      = min 3 2 := by
  have h := C1_retry_budget (⟨some true, some 2, some 1000, some false⟩ : RawSettings) false
    2 1000 "chat-a:1" (fun _ => "no tag")
    [CtrlEvent.genEnded "chat-a:1" "no tag", CtrlEvent.advance 999, CtrlEvent.advance 1,
     CtrlEvent.genEnded "chat-a:1" "still invalid", CtrlEvent.advance 1000,
     CtrlEvent.genEnded "chat-a:1" "still invalid again", CtrlEvent.advance 1000]
    rfl rfl (by decide) (by decide)
  refine ⟨(h.1 ?_).1, h.2 (fun _ => (by decide : scanValid ("no tag" : String).data = false)) 3⟩
  intro e he
  simp only [List.mem_cons, List.not_mem_nil, or_false] at he
  rcases he with rfl | rfl | rfl | rfl | rfl | rfl | rfl
  · exact Or.inl ⟨_, rfl, by decide⟩
  · exact Or.inr ⟨_, rfl⟩
  · exact Or.inr ⟨_, rfl⟩
  · exact Or.inl ⟨_, rfl, by decide⟩
  · exact Or.inr ⟨_, rfl⟩
  · exact Or.inl ⟨_, rfl, by decide⟩
  · exact Or.inr ⟨_, rfl⟩

/-- Claim C6 is false of the code: on a user-sent-message notification the
handler calls `resetGenerationOnly`, which deliberately leaves the gate
untouched, so a gate observing a slot keeps its observed slot, validity and
consumed mark.  Concrete refutation: a state whose gate observes
`chat-a:1` with `assistantValid = false` and a consumed mark keeps all of
them across `rtMessageSent`, and in particular its gate differs from the
initial gate that the claim demands. -/
theorem C6_messageSent_gate_not_reset :
    ((rtMessageSent
        { gate := { chatId := some "chat-a", assistantIndex := some 1,
                    messageKey := some "chat-a:1", assistantValid := false,
                    consumedForMessageKey := some "chat-a:1" } }).gate
      ≠ ({} : GateState)) ∧
    (rtMessageSent
        { gate := { chatId := some "chat-a", assistantIndex := some 1,
                    messageKey := some "chat-a:1", assistantValid := false,
                    consumedForMessageKey := some "chat-a:1" } }).gate.messageKey
      = some "chat-a:1" ∧
    (rtMessageSent
        { gate := { chatId := some "chat-a", assistantIndex := some 1,
                    messageKey := some "chat-a:1", assistantValid := false,
                    consumedForMessageKey := some "chat-a:1" } }).gate.assistantValid
      = false := by
  refine ⟨?_, rfl, rfl⟩
  decide

/-- Claim C6, amended: on a user-sent-message notification only the
generation session (sequence bumped, tracking fields cleared, settle timer
cancelled) and the retry state are reset; the gate state is deliberately
preserved, so queued duplicate sends for the same reply stay blocked.  The
gate is reset to its initial values only by the conversation-changed
notification, which otherwise performs the same resets. -/
theorem C6_messageSent_preserves_gate_amended (s : RtState) :
    (rtMessageSent s).gate = s.gate ∧
    (rtMessageSent s).session =
      { seq := s.session.seq + 1, chatId := none, targetIndex := none,
        isGenerating := false, settle := none } ∧
    (rtMessageSent s).ctrl = ctrlReset s.ctrl ∧
    (rtMessageSent s).now = s.now ∧
    (rtChatChanged s).gate = ({} : GateState) ∧
    (rtChatChanged s).session =
      { seq := s.session.seq + 1, chatId := none, targetIndex := none,
        isGenerating := false, settle := none } ∧
    (rtChatChanged s).ctrl = ctrlReset s.ctrl :=
  ⟨rfl, rfl, rfl, rfl, rfl, rfl, rfl⟩

/-- Claim C7: a directly user-initiated (trusted) send attempt is never
blocked and leaves the state untouched; an attempt is classified as
timeskip-style only when the cooperating automation is not disabled, its
auto-continue feature is on, the trimmed message text is non-blank, and it
equals either the trimmed configured selected option (itself non-blank) or
one of the trimmed configured option-list entries; and an attempt that is
not so classified is never blocked and leaves the state untouched. -/
theorem C7_trusted_and_classified (ctx : Context) (s : RtState)
    (mt : Option String) (acs : Option AutoContinueSettings) :
    (∀ att : SendAttempt, att.isTrusted = true →
      (shouldBlockAutoContinueTimeskipSend ctx att s).1 = false ∧
      (shouldBlockAutoContinueTimeskipSend ctx att s).2 = s) ∧
    (isAutoContinueTimeskipSendAttempt mt acs = true →
      ∃ a, acs = some a ∧
        a.enabled ≠ some false ∧ (∀ b, a.enabled = some b → b = true) ∧
        a.autoContinue = some true ∧
        jsTrimStr (mt.getD "") ≠ "" ∧
        ((jsTrimStr (a.selectedOption.getD "") ≠ "" ∧
          jsTrimStr (mt.getD "") = jsTrimStr (a.selectedOption.getD "")) ∨
         (∃ opts, a.timeskipOptions = some opts ∧
           ∃ o, o ∈ opts ∧ jsTrimStr (mt.getD "") = jsTrimStr (o.getD "")))) ∧
    (isAutoContinueTimeskipSendAttempt mt acs = false →
      ∀ tr : Bool,
        (shouldBlockAutoContinueTimeskipSend ctx
          { isTrusted := tr, messageText := mt, autoContinueSettings := acs } s).1 = false ∧
        (shouldBlockAutoContinueTimeskipSend ctx
          { isTrusted := tr, messageText := mt, autoContinueSettings := acs } s).2 = s) := by
  refine ⟨?_, ?_, ?_⟩
  · intro att h
    constructor <;> simp [shouldBlockAutoContinueTimeskipSend, h]
  · intro h
    cases acs with
    | none => simp [isAutoContinueTimeskipSendAttempt] at h
    | some a =>
      simp only [isAutoContinueTimeskipSendAttempt] at h
      by_cases c1 : (a.enabled == some false) = true
      · rw [if_pos c1] at h; cases h
      · rw [if_neg c1] at h
        by_cases c2 : (a.autoContinue != some true) = true
        · rw [if_pos c2] at h; cases h
        · rw [if_neg c2] at h
          by_cases c3 : jsTrimStr (mt.getD "") = ""
          · rw [if_pos c3] at h; cases h
          · rw [if_neg c3] at h
            refine ⟨a, rfl, by simpa using c1, ?_, by simpa using c2, c3, ?_⟩
            · intro b hb
              cases b with
              | true => rfl
              | false => exact absurd hb (by simpa using c1)
            · by_cases c4 : jsTrimStr (a.selectedOption.getD "") ≠ "" ∧
                  jsTrimStr (mt.getD "") = jsTrimStr (a.selectedOption.getD "")
              · exact Or.inl c4
              · rw [if_neg c4] at h
                cases ho : a.timeskipOptions with
                | none => rw [ho] at h; cases h
                | some opts =>
                  rw [ho] at h
                  obtain ⟨o, ho2, hbeq⟩ := List.any_eq_true.mp h
                  exact Or.inr ⟨opts, rfl, o, ho2, eq_of_beq hbeq⟩
  · intro h tr
    cases tr <;> constructor <;> simp [shouldBlockAutoContinueTimeskipSend, h]

/-- Witness for C7: a trusted attempt passes regardless of settings; the
concrete attempt "go" against a configuration with selected option " go "
(and `enabled` left undefined, which counts as enabled) is classified; and
the unclassified attempt "hello" with no cooperating settings passes. -/
theorem C7_trusted_and_classified_witness :
    ((shouldBlockAutoContinueTimeskipSend { chatId := some "c" }
        { isTrusted := true, messageText := some "go",
          autoContinueSettings := some
            { enabled := some true, autoContinue := some true,
              selectedOption := some " go ", timeskipOptions := none } } {}).1 = false) ∧
    (∃ a, (some
            { enabled := none, autoContinue := some true,
              selectedOption := some " go ", timeskipOptions := none }
            : Option AutoContinueSettings) = some a ∧
        a.enabled ≠ some false ∧ (∀ b, a.enabled = some b → b = true) ∧
        a.autoContinue = some true ∧
        jsTrimStr ((some "go" : Option String).getD "") ≠ "" ∧
        ((jsTrimStr (a.selectedOption.getD "") ≠ "" ∧
          jsTrimStr ((some "go" : Option String).getD "") =
            jsTrimStr (a.selectedOption.getD "")) ∨
         (∃ opts, a.timeskipOptions = some opts ∧
           ∃ o, o ∈ opts ∧
             jsTrimStr ((some "go" : Option String).getD "") = jsTrimStr (o.getD "")))) ∧
    ((shouldBlockAutoContinueTimeskipSend { chatId := some "c" }
        { isTrusted := false, messageText := some "hello",
          autoContinueSettings := none } {}).1 = false) :=
  ⟨((C7_trusted_and_classified { chatId := some "c" } {} (some "go")
      (some { enabled := some true, autoContinue := some true,
              selectedOption := some " go ", timeskipOptions := none })).1 _ rfl).1,
   (C7_trusted_and_classified { chatId := some "c" } {} (some "go")
      (some { enabled := none, autoContinue := some true,
              selectedOption := some " go ", timeskipOptions := none })).2.1 (by decide),
   ((C7_trusted_and_classified { chatId := some "c" } {} (some "hello")
      none).2.2 (by decide) false).1⟩

/-- Claim C5: a content-rendered notification triggers an evaluation only
when the rendered index is an in-bounds integer, the entry at it is neither
a user nor a side-channel (system) entry, and it is currently the index of
the latest reply-type entry of the conversation; a missing conversation, a
non-integer or out-of-bounds index, or a superseded (non-latest) index
leaves the state untouched, and in the accepting case the gate is updated
from the entry's text and the controller is fed the evaluation. -/
theorem C5_rendered_only_latest (raw : RawSettings) (ctx : Context)
    (mid : Option Int) (s : RtState) :
    (ctx.chat = none → rtRendered raw ctx mid s = s) ∧
    (mid = none → rtRendered raw ctx mid s = s) ∧
    (∀ id chat, mid = some id → ctx.chat = some chat →
      (id < 0 ∨ (chat.length : Int) ≤ id) → rtRendered raw ctx mid s = s) ∧
    (∀ id chat, mid = some id → ctx.chat = some chat →
      (∀ li text, findLatestAssistantMessage (some chat) = some (li, text) →
        (li : Int) ≠ id) →
      rtRendered raw ctx mid s = s) ∧
    (∀ id chat li text m, mid = some id → ctx.chat = some chat →
      ¬ (id < 0 ∨ (chat.length : Int) ≤ id) →
      findLatestAssistantMessage (some chat) = some (li, text) → (li : Int) = id →
      chat[id.toNat]? = some (some m) → ¬ (m.is_system ∨ m.is_user) →
      (rtRendered raw ctx mid s).gate =
        updateAutoContinueGate (ctx.chatId.getD "unknown") id (m.mes.getD "") s.gate ∧
      (rtRendered raw ctx mid s).ctrl =
        ctrlGenEnded raw s.now (makeMessageKey (ctx.chatId.getD "unknown") id)
          (m.mes.getD "") s.ctrl) := by
  refine ⟨?_, ?_, ?_, ?_, ?_⟩
  · intro h
    unfold rtRendered
    rw [h]
  · intro h
    subst h
    unfold rtRendered
    cases hc : ctx.chat <;> rfl
  · intro id chat hmid hchat hb
    subst hmid
    unfold rtRendered
    rw [hchat]
    dsimp only
    rw [if_pos hb]
  · intro id chat hmid hchat hlat
    subst hmid
    unfold rtRendered
    rw [hchat]
    dsimp only
    by_cases hb : id < 0 ∨ (chat.length : Int) ≤ id
    · rw [if_pos hb]
    · rw [if_neg hb]
      cases hfl : findLatestAssistantMessage (some chat) with
      | none => rfl
      | some p =>
        obtain ⟨li, tx⟩ := p
        dsimp only
        rw [if_pos (hlat li tx hfl)]
  · intro id chat li text m hmid hchat hb hfl hli hentry hmu
    subst hmid
    have hmain : rtRendered raw ctx (some id) s =
        (let s1 :=
          if s.session.chatId = some (ctx.chatId.getD "unknown") ∧
              s.session.targetIndex = some id then
            { s with session := { s.session with settle := none, isGenerating := false } }
          else s
         let g2 := updateAutoContinueGate (ctx.chatId.getD "unknown") id (m.mes.getD "") s1.gate
         let c2 := ctrlGenEnded raw s1.now (makeMessageKey (ctx.chatId.getD "unknown") id)
           (m.mes.getD "") s1.ctrl
         { s1 with gate := g2, ctrl := c2 }) := by
      unfold rtRendered
      rw [hchat]
      dsimp only
      rw [if_neg hb, hfl]
      dsimp only
      rw [if_neg (not_not_intro hli), hentry]
      dsimp only
      rw [if_neg hmu]
    rw [hmain]
    by_cases hcond : s.session.chatId = some (ctx.chatId.getD "unknown") ∧
        s.session.targetIndex = some id
    · dsimp only
      rw [if_pos hcond]
      exact ⟨rfl, rfl⟩
    · dsimp only
      rw [if_neg hcond]
      exact ⟨rfl, rfl⟩

/-- Witness for C5: a conversation where the latest reply has been
superseded by a user message — a re-render notification for the old reply
index 0 changes nothing. -/
theorem C5_rendered_only_latest_witness :
    rtRendered {}
      { chatId := some "c",
        chat := some [some { mes := some "old" },
                      some { is_user := true, mes := some "hi" }] }
      (some 0) {} = {} :=
  (C5_rendered_only_latest {}
    { chatId := some "c",
      chat := some [some { mes := some "old" },
                    some { is_user := true, mes := some "hi" }] }
    (some 0) {}).2.2.2.1 0
    [some { mes := some "old" }, some { is_user := true, mes := some "hi" }]
    rfl rfl
    (fun li tx hfl => by
      rw [(by decide : findLatestAssistantMessage
        (some [some { mes := some "old" }, some { is_user := true, mes := some "hi" }])
          = (none : Option (Nat × String)))] at hfl
      cases hfl)

/-- Claim C8: every settle timer scheduled by the generation-ended handler
captures the session's sequence number, chat id and target index at
scheduling time and fires a fixed settle delay later; a firing callback
that finds the sequence number advanced only clears its own timer slot and
triggers no evaluation; a non-stale callback for the same conversation that
finds the target slot still empty feeds the empty string as the observed
text to the gate and the controller. -/
theorem C8_settle_capture_and_guard (raw : RawSettings) (ctx ctx0 : Context)
    (s : RtState) (t : SettleInfo) :
    (readAssistantTextAt ctx0.chat (genEndedTargetIndex ctx0 s) = none →
      ∃ t', (rtGenEnded raw ctx0 s).session.settle = some t' ∧
        t'.seq = (rtGenEnded raw ctx0 s).session.seq ∧
        t'.chatId = ctx0.chatId.getD "unknown" ∧
        t'.targetIndex = genEndedTargetIndex ctx0 s ∧
        t'.fireAt = s.now + SETTLE_DELAY_MS) ∧
    (s.session.settle = some t → s.session.seq ≠ t.seq →
      settleFire raw ctx s = { s with session := { s.session with settle := none } }) ∧
    (s.session.settle = some t → s.session.seq = t.seq →
      ctx.chatId.getD "unknown" = t.chatId →
      readAssistantTextAt ctx.chat t.targetIndex = none →
      settleFire raw ctx s =
        { s with
          session := { s.session with settle := none },
          gate := updateAutoContinueGate t.chatId t.targetIndex "" s.gate,
          ctrl := ctrlGenEnded raw s.now (makeMessageKey t.chatId t.targetIndex) "" s.ctrl }) := by
  refine ⟨?_, ?_, ?_⟩
  · intro hread
    unfold rtGenEnded
    dsimp only
    rw [hread]
    exact ⟨_, rfl, rfl, rfl, rfl, rfl⟩
  · intro hsettle hne
    unfold settleFire
    rw [hsettle]
    dsimp only
    rw [if_pos hne]
  · intro hsettle hseq hcid hread
    unfold settleFire
    rw [hsettle]
    dsimp only
    rw [if_neg (not_not_intro hseq), if_neg (not_not_intro hcid), hread]
    rfl

/-- Witness for C8: the three behaviours at concrete states — scheduling a
settle timer for an empty slot captures sequence number 5 and a deadline a
settle delay after time 10; a callback captured at sequence 1 firing while
the session is at sequence 2 only clears the slot; a matching callback at
sequence 3 over a missing conversation feeds the empty string. -/
theorem C8_settle_capture_and_guard_witness :
    (∃ t', (rtGenEnded {} { chatId := some "c", chat := some ([] : Chat) }
        { now := 10, session := { seq := 5, chatId := some "c", targetIndex := some 0,
                                  isGenerating := true } }).session.settle = some t' ∧
      t'.seq = (rtGenEnded {} { chatId := some "c", chat := some ([] : Chat) }
        { now := 10, session := { seq := 5, chatId := some "c", targetIndex := some 0,
                                  isGenerating := true } }).session.seq ∧
      t'.chatId = "c" ∧ t'.targetIndex = (0 : Int) ∧ t'.fireAt = 260) ∧
    (settleFire {} { chatId := some "c" }
      { session := { seq := 2, settle := some { seq := 1, chatId := "c", targetIndex := 0,
                                                fireAt := 250 } } } =
      { session := { seq := 2 } }) ∧
    (settleFire {} { chatId := some "c" }
      { now := 7, session := { seq := 3, settle := some { seq := 3, chatId := "c",
                                                          targetIndex := 0,
                                                          fireAt := 257 } } } =
      { now := 7, session := { seq := 3 },
        gate := updateAutoContinueGate "c" 0 "" {},
        ctrl := ctrlGenEnded {} 7 (makeMessageKey "c" 0) "" {} }) :=
  ⟨(C8_settle_capture_and_guard {} {} { chatId := some "c", chat := some ([] : Chat) }
      { now := 10, session := { seq := 5, chatId := some "c", targetIndex := some 0,
                                isGenerating := true } }
      ⟨0, "x", 0, 0⟩).1 (by decide),
   (C8_settle_capture_and_guard {} { chatId := some "c" } {}
      { session := { seq := 2, settle := some { seq := 1, chatId := "c", targetIndex := 0,
                                                fireAt := 250 } } }
      ⟨1, "c", 0, 250⟩).2.1 rfl (by decide),
   (C8_settle_capture_and_guard {} { chatId := some "c" } {}
      { now := 7, session := { seq := 3, settle := some { seq := 3, chatId := "c",
                                                          targetIndex := 0,
                                                          fireAt := 257 } } }
      ⟨3, "c", 0, 257⟩).2.2 rfl rfl rfl rfl⟩

/-- One gate evaluation over an observed slot `(c, i)` with an idle session:
the decision and the successor state are determined by the validity of the
text currently at the slot and by the consumed mark. -/
theorem shouldBlock_observed_step (ctx : Context) (att : SendAttempt)
    (s : RtState) (c : String) (i : Int)
    (htr : att.isTrusted = false)
    (hcls : isAutoContinueTimeskipSendAttempt att.messageText att.autoContinueSettings = true)
    (hgen : s.session.isGenerating = false) (hset : s.session.settle = none)
    (hgc : s.gate.chatId = some c) (hgi : s.gate.assistantIndex = some i)
    (hgk : s.gate.messageKey = some (makeMessageKey c i))
    (hctx : ctx.chatId = some c) :
    shouldBlockAutoContinueTimeskipSend ctx att s =
      (if scanValid ((readAssistantTextAt ctx.chat i).getD "").data = false then
        (true, { s with gate := { s.gate with assistantValid := false } })
      else if s.gate.consumedForMessageKey = some (makeMessageKey c i) then
        (true, { s with gate := { s.gate with assistantValid := true } })
      else
        (false,
          { s with gate :=
              { s.gate with assistantValid := true,
                            consumedForMessageKey := some (makeMessageKey c i) } })) := by
  by_cases hv : scanValid ((readAssistantTextAt ctx.chat i).getD "").data = false
  · rw [if_pos hv]
    simp [shouldBlockAutoContinueTimeskipSend, updateAutoContinueGate, htr, hcls, hgen,
      hset, hgk, hgi, hgc, hctx, hv]
  · have hv' : scanValid ((readAssistantTextAt ctx.chat i).getD "").data = true := by
      simpa using hv
    rw [if_neg hv]
    by_cases hco : s.gate.consumedForMessageKey = some (makeMessageKey c i)
    · rw [if_pos hco]
      simp [shouldBlockAutoContinueTimeskipSend, updateAutoContinueGate, htr, hcls, hgen,
        hset, hgk, hgi, hgc, hctx, hv', hco]
    · rw [if_neg hco]
      simp [shouldBlockAutoContinueTimeskipSend, updateAutoContinueGate, htr, hcls, hgen,
        hset, hgk, hgi, hgc, hctx, hv', hco]

/-- While the slot text is invalid, every classified attempt is blocked. -/
theorem attemptSeq_invalid_all_blocked (ctx : Context) (att : SendAttempt)
    (c : String) (i : Int)
    (htr : att.isTrusted = false)
    (hcls : isAutoContinueTimeskipSendAttempt att.messageText att.autoContinueSettings = true)
    (hctx : ctx.chatId = some c)
    (hv : scanValid ((readAssistantTextAt ctx.chat i).getD "").data = false) :
    ∀ n s, s.session.isGenerating = false → s.session.settle = none →
      s.gate.chatId = some c → s.gate.assistantIndex = some i →
      s.gate.messageKey = some (makeMessageKey c i) →
      attemptSeq ctx att n s = List.replicate n true := by
  intro n
  induction n with
  | zero => intro s _ _ _ _ _; rfl
  | succ n ih =>
    intro s hgen hset hgc hgi hgk
    have hstep := shouldBlock_observed_step ctx att s c i htr hcls hgen hset hgc hgi hgk hctx
    rw [if_pos hv] at hstep
    show (shouldBlockAutoContinueTimeskipSend ctx att s).1 ::
      attemptSeq ctx att n (shouldBlockAutoContinueTimeskipSend ctx att s).2 = _
    rw [hstep, List.replicate_succ]
    exact congrArg (List.cons true) (ih _ hgen hset hgc hgi hgk)

/-- Once the consumed mark is set for the observed slot, every classified
attempt is blocked again, even with valid text. -/
theorem attemptSeq_consumed_all_blocked (ctx : Context) (att : SendAttempt)
    (c : String) (i : Int)
    (htr : att.isTrusted = false)
    (hcls : isAutoContinueTimeskipSendAttempt att.messageText att.autoContinueSettings = true)
    (hctx : ctx.chatId = some c)
    (hv : scanValid ((readAssistantTextAt ctx.chat i).getD "").data = true) :
    ∀ n s, s.session.isGenerating = false → s.session.settle = none →
      s.gate.chatId = some c → s.gate.assistantIndex = some i →
      s.gate.messageKey = some (makeMessageKey c i) →
      s.gate.consumedForMessageKey = some (makeMessageKey c i) →
      attemptSeq ctx att n s = List.replicate n true := by
  intro n
  induction n with
  | zero => intro s _ _ _ _ _ _; rfl
  | succ n ih =>
    intro s hgen hset hgc hgi hgk hco
    have hstep := shouldBlock_observed_step ctx att s c i htr hcls hgen hset hgc hgi hgk hctx
    rw [if_neg (by simp [hv]), if_pos hco] at hstep
    show (shouldBlockAutoContinueTimeskipSend ctx att s).1 ::
      attemptSeq ctx att n (shouldBlockAutoContinueTimeskipSend ctx att s).2 = _
    rw [hstep, List.replicate_succ]
    exact congrArg (List.cons true) (ih _ hgen hset hgc hgi hgk hco)

/-- Claim C2: over an unchanged observed slot with an idle session, while
the slot text is invalid every classified (untrusted, timeskip-style) send
attempt is blocked; with valid text and the consumption not yet granted the
first attempt is allowed and the slot is marked consumed, after which every
further attempt for the same slot is blocked again; and with the
consumption already granted every attempt is blocked. -/
theorem C2_gate_exactly_once (ctx : Context) (att : SendAttempt)
    (c : String) (i : Int)
    (htr : att.isTrusted = false)
    (hcls : isAutoContinueTimeskipSendAttempt att.messageText att.autoContinueSettings = true)
    (hctx : ctx.chatId = some c) :
    (scanValid ((readAssistantTextAt ctx.chat i).getD "").data = false →
      ∀ n s, s.session.isGenerating = false → s.session.settle = none →
        s.gate.chatId = some c → s.gate.assistantIndex = some i →
        s.gate.messageKey = some (makeMessageKey c i) →
        attemptSeq ctx att n s = List.replicate n true) ∧
    (scanValid ((readAssistantTextAt ctx.chat i).getD "").data = true →
      ∀ n s, s.session.isGenerating = false → s.session.settle = none →
        s.gate.chatId = some c → s.gate.assistantIndex = some i →
        s.gate.messageKey = some (makeMessageKey c i) →
        s.gate.consumedForMessageKey ≠ some (makeMessageKey c i) →
        attemptSeq ctx att (n + 1) s = false :: List.replicate n true ∧
        (shouldBlockAutoContinueTimeskipSend ctx att s).2.gate.consumedForMessageKey
          = some (makeMessageKey c i)) ∧
    (scanValid ((readAssistantTextAt ctx.chat i).getD "").data = true →
      ∀ n s, s.session.isGenerating = false → s.session.settle = none →
        s.gate.chatId = some c → s.gate.assistantIndex = some i →
        s.gate.messageKey = some (makeMessageKey c i) →
        s.gate.consumedForMessageKey = some (makeMessageKey c i) →
        attemptSeq ctx att n s = List.replicate n true) := by
  refine ⟨attemptSeq_invalid_all_blocked ctx att c i htr hcls hctx, ?_,
    attemptSeq_consumed_all_blocked ctx att c i htr hcls hctx⟩
  intro hv n s hgen hset hgc hgi hgk hco
  have hstep := shouldBlock_observed_step ctx att s c i htr hcls hgen hset hgc hgi hgk hctx
  rw [if_neg (by simp [hv]), if_neg hco] at hstep
  constructor
  · show (shouldBlockAutoContinueTimeskipSend ctx att s).1 ::
      attemptSeq ctx att n (shouldBlockAutoContinueTimeskipSend ctx att s).2 = _
    rw [hstep]
    exact congrArg (List.cons false)
      (attemptSeq_consumed_all_blocked ctx att c i htr hcls hctx hv n _
        hgen hset hgc hgi hgk rfl)
  · rw [hstep]

/-- Witness for C2: against a conversation whose slot 0 holds a valid
reply, the classified attempt "go" is allowed exactly once from a fresh
gate observing that slot — three attempts in a row decide
allow, block, block. -/
theorem C2_gate_exactly_once_witness :
    attemptSeq
      { chatId := some "c", chat := some [some { mes := some "<game>ok</game>" }] }
      { isTrusted := false, messageText := some "go",
        autoContinueSettings := some
          { enabled := some true, autoContinue := some true,
            selectedOption := some "go", timeskipOptions := none } }
      3
      { gate := { chatId := some "c", assistantIndex := some 0,
                  messageKey := some (makeMessageKey "c" 0), assistantValid := true,
                  consumedForMessageKey := none } } =
      false :: List.replicate 2 true :=
  ((C2_gate_exactly_once
      { chatId := some "c", chat := some [some { mes := some "<game>ok</game>" }] }
      { isTrusted := false, messageText := some "go",
        autoContinueSettings := some
          { enabled := some true, autoContinue := some true,
            selectedOption := some "go", timeskipOptions := none } }
      "c" 0 rfl (by decide) rfl).2.1 (by decide) 2
      { gate := { chatId := some "c", assistantIndex := some 0,
                  messageKey := some (makeMessageKey "c" 0), assistantValid := true,
                  consumedForMessageKey := none } }
      rfl rfl rfl rfl rfl (by decide)).1

end AutoRetry
